import Mathlib

/-!
# Verification of the teletrader order-lifecycle manager

Shallow embedding of the trading core (`src/trader/signal.py` and
`src/trader/__init__.py`) over exact rationals.  Python floats are modelled as
`ℚ` with decimal literals read exactly (e.g. `0.01` becomes `1/100`); Python
dicts keyed by client-order-id are modelled as insertion-ordered association
lists; the exchange is modelled by an explicit snapshot (open orders,
positions, per-order fill status) passed to the reconciliation pass, and
exchange order creation is modelled on its success path with fresh client ids
drawn from an explicit supply list.
-/

namespace Teletrader

/-- The `Signal` object of `signal.py`.  `isLongOpt` models the `_is_long`
field (`None` for fully parsed signals), `wait_entry` and `entry` model the
attributes that `Signal.correct` installs (zero-initialised before
correction, as no code reads them earlier). -/
structure Signal where
  coin : String
  entries : List ℚ
  sl : Option ℚ
  stop_pct : ℚ
  targets : List ℚ
  leverage : ℚ
  tag : Option String
  fraction : ℚ
  risk : ℚ
  force_limit : Bool
  isLongOpt : Option Bool
  wait_entry : Bool
  entry : ℚ
  deriving DecidableEq

/-- Python's `abs` on exact rationals. -/
def rabs (x : ℚ) : ℚ := if x < 0 then -x else x

/-- Python's `str.upper()` on the ASCII strings used for coin names. -/
def pyUpperChar (c : Char) : Char :=
  if 'a' ≤ c ∧ c ≤ 'z' then Char.ofNat (c.toNat - 32) else c

/-- `coin.upper()`. -/
def pyUpper (s : String) : String := String.mk (s.data.map pyUpperChar)

/-- Relative distance `abs(sig_p * 10^(i-6) - mark_p) / mark_p` examined at
step `i` of `Signal.factor`'s loop (the code writes the factor as
`1 / (10 ** (MIN_PRECISION - i))` with `MIN_PRECISION = 6`). -/
def distAt (sig_p mark_p : ℚ) (i : ℕ) : ℚ :=
  rabs (sig_p * ((10 : ℚ) ^ i / 10 ^ 6) - mark_p) / mark_p

/-- The greedy loop of `Signal.factor` (`signal.py` lines 129-138): keep the
factor while the relative distance strictly improves, stop at the first
non-improvement.  `fuel` counts the remaining iterations of
`range(MIN_PRECISION * 2)`, `i` is the current index. -/
def factorAux (sig_p mark_p : ℚ) : ℕ → ℕ → ℚ → ℚ → ℚ
  | 0, _, _, fac => fac
  | fuel + 1, i, minima, fac =>
    if distAt sig_p mark_p i < minima then
      factorAux sig_p mark_p fuel (i + 1) (distAt sig_p mark_p i) ((10 : ℚ) ^ i / 10 ^ 6)
    else fac

/-- `Signal.factor` (`signal.py` lines 127-139).  The first iteration always
updates (`minima` starts at `math.inf` and the distance is finite), so it is
unrolled here: the loop starts at `i = 1` carrying the distance and factor of
index `0`. -/
def Signal.factor (sig_p mark_p : ℚ) : ℚ :=
  factorAux sig_p mark_p 11 1 (distAt sig_p mark_p 0) ((10 : ℚ) ^ 0 / 10 ^ 6)

/-- The `is_long` property as a function of `_is_long`, the entries and the
targets (`signal.py` lines 75-79): partial signals carry their direction,
otherwise the first target is compared with the first entry. -/
def isLongState (iLO : Option Bool) (entries targets : List ℚ) : Bool :=
  match iLO with
  | some b => b
  | none => decide (targets.headD 0 > entries.headD 0)

/-- `Signal.is_long`. -/
def Signal.is_long (s : Signal) : Bool :=
  isLongState s.isLongOpt s.entries s.targets

/-- `Signal.is_short`. -/
def Signal.is_short (s : Signal) : Bool := !s.is_long

/-- `Signal.max_entry` (`signal.py` lines 97-100): a 20% offset between the
(corrected) entry and the first (corrected) target. -/
def Signal.max_entry (s : Signal) : ℚ :=
  s.entry + (s.targets.headD 0 - s.entry) * (2 / 10)

/-- The front-running loop at the end of `Signal.correct` (`signal.py` lines
121-125).  Python mutates `self.targets` in place while the loop's
`self.is_long` property re-reads the mutated list, so the current list is
`done ++ tgt :: rest` at each step. -/
def frontRunGo (iLO : Option Bool) (entries : List ℚ) :
    List ℚ → ℚ → List ℚ → List ℚ
  | [], _, done => done
  | tgt :: rest, prev, done =>
    let isL := isLongState iLO entries (done ++ tgt :: rest)
    let diff := (if isL then tgt - prev else prev - tgt) * (1 / 100)
    let newT := if isL then tgt - diff else tgt + diff
    frontRunGo iLO entries rest tgt (done ++ [newT])

/-- `Signal.correct` (`signal.py` lines 102-125): scale every price by its own
decimal-shift factor, sort the entries, pick the entry and `wait_entry` flag
from the live price, default or scale the stop loss, compute the risk
fraction, then front-run the targets by 1% of each step. -/
def Signal.correct (s : Signal) (price : ℚ) : Signal :=
  let entries1 := List.insertionSort (· ≤ ·) (s.entries.map fun i => i * Signal.factor i price)
  let targets1 := s.targets.map fun i => i * Signal.factor i price
  let isL := isLongState s.isLongOpt entries1 targets1
  let wait := (isL && decide (price < entries1.headD 0)) ||
    (!isL && decide (price > entries1.getLastD 0))
  let entry :=
    if wait then (if isL then entries1.headD 0 else entries1.getLastD 0)
    else (if isL then entries1.getLastD 0 else entries1.headD 0)
  let sl1 :=
    match s.sl with
    | none => if isL then entry * (1 - s.stop_pct) else entry * (1 + s.stop_pct)
    | some v => v * Signal.factor v price
  let percent0 := entry / sl1
  let percent := if isL then percent0 - 1 else 1 - percent0
  { s with
    entries := entries1
    targets := frontRunGo s.isLongOpt entries1 targets1 entry []
    sl := some sl1
    wait_entry := wait
    entry := entry
    fraction := s.risk / (percent * s.leverage) }

/-- `Signal.__init__` (`signal.py` lines 35-47): sort the entries, default the
stop percentage and risk factor on falsy values, clamp the leverage to
`MIN_LEVERAGE = 25` (defaulting to `DEFAULT_LEVERAGE = 25`). -/
def mkSignal (coin : String) (entries targets : List ℚ) (sl : Option ℚ)
    (leverage risk_factor : Option ℚ) (is_long : Option Bool)
    (force_limit : Bool) (stop_percent : Option ℚ) (tag : Option String) : Signal :=
  { coin := pyUpper coin
    entries := List.insertionSort (· ≤ ·) entries
    sl := sl
    stop_pct := match stop_percent with | some v => if v = 0 then 8 / 100 else v | none => 8 / 100
    targets := targets
    leverage := max (match leverage with | some l => if l = 0 then 25 else l | none => 25) 25
    tag := tag
    fraction := 0
    risk := 1 / 100 * (match risk_factor with | some r => if r = 0 then 1 else r | none => 1)
    force_limit := force_limit
    isLongOpt := is_long
    wait_entry := false
    entry := 0 }

/-- The target chain checked by the constructor's loop (`signal.py` lines
50-53): each target strictly beyond the previous value in the direction of
profit. -/
def monotoneFrom (isL : Bool) : ℚ → List ℚ → Bool
  | _, [] => true
  | prev, t :: ts =>
    (if isL then decide (t > prev) else decide (t < prev)) && monotoneFrom isL t ts

/-- The assertions of `Signal.__init__` (`signal.py` lines 48-55): skipped for
partial signals; the stop-loss check is skipped when `self.sl` is falsy
(`None` or `0`). -/
def initOk (s : Signal) : Bool :=
  if s.isLongOpt.isSome then true
  else
    let isL := decide (s.targets.headD 0 > s.entries.headD 0)
    monotoneFrom isL (s.entries.headD 0) s.targets &&
      (match s.sl with
       | none => true
       | some v =>
         if v = 0 then true
         else if isL then decide (v < s.entries.headD 0)
         else decide (v > s.entries.getLastD 0))

/-- All prices of a signal (entries, targets and an explicit stop loss) get
the same decimal-shift factor `f` against `price`. -/
def uniformFactor (s : Signal) (price f : ℚ) : Bool :=
  s.entries.all (fun p => decide (Signal.factor p price = f)) &&
  s.targets.all (fun p => decide (Signal.factor p price = f)) &&
  (match s.sl with | none => true | some v => decide (Signal.factor v price = f))

/-- Closed form of the front-running loop for a signal that stays long
throughout the loop: each target moves toward the previous level by 1% of the
gap. -/
def frontRunAdj : ℚ → List ℚ → List ℚ
  | _, [] => []
  | prev, t :: ts => (t - (t - prev) * (1 / 100)) :: frontRunAdj t ts

/-- Closed form of the front-running loop for a signal that stays short
throughout the loop. -/
def frontRunAdjS : ℚ → List ℚ → List ℚ
  | _, [] => []
  | prev, t :: ts => (t + (prev - t) * (1 / 100)) :: frontRunAdjS t ts

/-! ## The greedy factor search (`Signal.factor`) -/

/-- Invariant of the factor loop: entered at index `i + 1` carrying the
distance and factor of index `i`, it returns the factor of the last index of
the maximal strictly-improving prefix (or of the last index it had fuel
for). -/
lemma factorAux_spec (s m : ℚ) : ∀ (fuel i : ℕ),
    ∃ k, i ≤ k ∧ k ≤ i + fuel ∧
      factorAux s m fuel (i + 1) (distAt s m i) ((10 : ℚ) ^ i / 10 ^ 6) =
        (10 : ℚ) ^ k / 10 ^ 6 ∧
      (∀ j, i ≤ j → j < k → distAt s m (j + 1) < distAt s m j) ∧
      (k = i + fuel ∨ ¬ distAt s m (k + 1) < distAt s m k) := by
  intro fuel
  induction fuel with
  | zero =>
    intro i
    refine ⟨i, le_refl i, by omega, rfl, ?_, Or.inl (by omega)⟩
    intro j h1 h2
    exact absurd (lt_of_le_of_lt h1 h2) (lt_irrefl i)
  | succ fuel ih =>
    intro i
    by_cases h : distAt s m (i + 1) < distAt s m i
    · obtain ⟨k, hk1, hk2, hk3, hk4, hk5⟩ := ih (i + 1)
      refine ⟨k, by omega, by omega, ?_, ?_, ?_⟩
      · rw [factorAux, if_pos h]
        exact hk3
      · intro j hj1 hj2
        rcases Nat.eq_or_lt_of_le hj1 with rfl | hj
        · exact h
        · exact hk4 j (by omega) hj2
      · rcases hk5 with h5 | h5
        · exact Or.inl (by omega)
        · exact Or.inr h5
    · refine ⟨i, le_refl i, by omega, ?_, ?_, Or.inr h⟩
      · rw [factorAux, if_neg h]
      · intro j h1 h2
        exact absurd (lt_of_le_of_lt h1 h2) (lt_irrefl i)

/-- A strictly descending chain attains its minimum at the end. -/
lemma min_of_strict_desc (d : ℕ → ℚ) :
    ∀ k, (∀ j, j < k → d (j + 1) < d j) → ∀ j, j ≤ k → d k ≤ d j := by
  intro k
  induction k with
  | zero =>
    intro _ j hj
    have : j = 0 := Nat.le_zero.mp hj
    subst this
    exact le_refl _
  | succ k ih =>
    intro h j hj
    rcases Nat.eq_or_lt_of_le hj with rfl | hj2
    · exact le_refl _
    · have h1 : d (k + 1) < d k := h k (by omega)
      have h2 : d k ≤ d j := ih (fun j hj => h j (by omega)) j (by omega)
      exact le_of_lt (lt_of_lt_of_le h1 h2)

/-- C8: for any signal price and positive mark price, `Signal.factor` performs
one greedy pass over the factors `10 ^ (i - 6)`, returns the factor of the
last index of the maximal strictly-improving prefix of relative distances
(so it stops at the first factor that does not strictly improve, a tie keeps
the factor tried earlier), that factor minimises the relative distance among
all indices up to the stopping point, and it is an integer power of ten. -/
theorem factor_greedy_characterization (sig_p mark_p : ℚ) (_hm : 0 < mark_p) :
    ∃ k : ℕ, k ≤ 11 ∧
      Signal.factor sig_p mark_p = (10 : ℚ) ^ k / 10 ^ 6 ∧
      (∃ z : ℤ, Signal.factor sig_p mark_p = (10 : ℚ) ^ z) ∧
      (∀ j, j < k → distAt sig_p mark_p (j + 1) < distAt sig_p mark_p j) ∧
      (k = 11 ∨ ¬ distAt sig_p mark_p (k + 1) < distAt sig_p mark_p k) ∧
      (∀ j, j ≤ k → distAt sig_p mark_p k ≤ distAt sig_p mark_p j) := by
  obtain ⟨k, _, hk2, hk3, hk4, hk5⟩ := factorAux_spec sig_p mark_p 11 0
  simp only [Nat.zero_add] at hk2 hk3 hk5
  have hfac : Signal.factor sig_p mark_p = (10 : ℚ) ^ k / 10 ^ 6 := hk3
  refine ⟨k, hk2, hfac, ⟨(k : ℤ) - 6, ?_⟩, fun j hj => hk4 j (Nat.zero_le j) hj, hk5, ?_⟩
  · rw [hfac, zpow_sub₀ (by norm_num : (10 : ℚ) ≠ 0)]
    norm_num
  · exact min_of_strict_desc (distAt sig_p mark_p) k (fun j hj => hk4 j (Nat.zero_le j) hj)

/-- Witness for C8 at the spec's own example (`0.578` meant as `0.000578`):
the mark price is positive and the characterization holds there. -/
theorem factor_greedy_characterization_witness :
    (0 : ℚ) < 578 / 1000000 ∧
      ∃ k : ℕ, k ≤ 11 ∧
        Signal.factor (578 / 1000) (578 / 1000000) = (10 : ℚ) ^ k / 10 ^ 6 ∧
        (∃ z : ℤ, Signal.factor (578 / 1000) (578 / 1000000) = (10 : ℚ) ^ z) ∧
        (∀ j, j < k →
          distAt (578 / 1000) (578 / 1000000) (j + 1) < distAt (578 / 1000) (578 / 1000000) j) ∧
        (k = 11 ∨ ¬ distAt (578 / 1000) (578 / 1000000) (k + 1) <
          distAt (578 / 1000) (578 / 1000000) k) ∧
        (∀ j, j ≤ k →
          distAt (578 / 1000) (578 / 1000000) k ≤ distAt (578 / 1000) (578 / 1000000) j) :=
  ⟨by norm_num, factor_greedy_characterization (578 / 1000) (578 / 1000000) (by norm_num)⟩

/-! ## Closed form of `Signal.correct` for direction-stable signals -/

/-- A strict ascending chain survives lowering its base point. -/
lemma chain_lt_of_le {a b : ℚ} {l : List ℚ} (h : List.Chain (· < ·) b l) (hab : a ≤ b) :
    List.Chain (· < ·) a l := by
  cases l with
  | nil => exact List.Chain.nil
  | cons c cs =>
    rw [List.chain_cons] at h ⊢
    exact ⟨lt_of_le_of_lt hab h.1, h.2⟩

/-- A strict descending chain survives raising its base point. -/
lemma chain_gt_of_ge {a b : ℚ} {l : List ℚ} (h : List.Chain (· > ·) b l) (hab : b ≤ a) :
    List.Chain (· > ·) a l := by
  cases l with
  | nil => exact List.Chain.nil
  | cons c cs =>
    rw [List.chain_cons] at h ⊢
    exact ⟨lt_of_lt_of_le h.1 hab, h.2⟩

/-- Scaling by a positive factor preserves strict ascending chains. -/
lemma chain_lt_map_mul (f : ℚ) (hf : 0 < f) :
    ∀ (l : List ℚ) (a : ℚ), List.Chain (· < ·) a l →
      List.Chain (· < ·) (a * f) (l.map (· * f)) := by
  intro l
  induction l with
  | nil => intro a _; exact List.Chain.nil
  | cons t ts ih =>
    intro a h
    rw [List.chain_cons] at h
    rw [List.map_cons, List.chain_cons]
    exact ⟨mul_lt_mul_of_pos_right h.1 hf, ih t h.2⟩

/-- Scaling by a positive factor preserves strict descending chains. -/
lemma chain_gt_map_mul (f : ℚ) (hf : 0 < f) :
    ∀ (l : List ℚ) (a : ℚ), List.Chain (· > ·) a l →
      List.Chain (· > ·) (a * f) (l.map (· * f)) := by
  intro l
  induction l with
  | nil => intro a _; exact List.Chain.nil
  | cons t ts ih =>
    intro a h
    rw [List.chain_cons] at h
    rw [List.map_cons, List.chain_cons]
    exact ⟨mul_lt_mul_of_pos_right h.1 hf, ih t h.2⟩

/-- The front-running loop of a signal that stays long throughout the loop
computes `frontRunAdj`: the invariant carries the adjusted prefix `done`
(strictly ascending above the single entry `E`, ending at or below `prev`)
and the raw remainder `rest` (strictly ascending above `prev`). -/
lemma frontRunGo_long (E : ℚ) :
    ∀ (rest : List ℚ) (prev : ℚ) (done : List ℚ),
      E ≤ prev →
      List.Chain' (· < ·) (E :: done) →
      (∀ x ∈ (E :: done).getLast?, x ≤ prev) →
      List.Chain (· < ·) prev rest →
      frontRunGo none [E] rest prev done = done ++ frontRunAdj prev rest := by
  intro rest
  induction rest with
  | nil =>
    intro prev done _ _ _ _
    simp [frontRunGo, frontRunAdj]
  | cons t ts ih =>
    intro prev done hEp hchain hlast hr
    rw [List.chain_cons] at hr
    have hisL : isLongState none [E] (done ++ t :: ts) = true := by
      cases done with
      | nil =>
        simp only [isLongState, List.nil_append, List.headD_cons, decide_eq_true_eq]
        exact lt_of_le_of_lt hEp hr.1
      | cons d ds =>
        rw [List.chain'_cons] at hchain
        simp only [isLongState, List.cons_append, List.headD_cons, decide_eq_true_eq]
        exact hchain.1
    rw [frontRunGo]
    simp only [hisL, if_true]
    have hnew : frontRunGo none [E] ts t (done ++ [t - (t - prev) * (1 / 100)]) =
        (done ++ [t - (t - prev) * (1 / 100)]) ++ frontRunAdj t ts := by
      apply ih
      · exact le_of_lt (lt_of_le_of_lt hEp hr.1)
      · rw [show (E :: (done ++ [t - (t - prev) * (1 / 100)])) =
            (E :: done) ++ [t - (t - prev) * (1 / 100)] by simp]
        rw [List.chain'_append]
        refine ⟨hchain, List.chain'_singleton _, ?_⟩
        intro x hx y hy
        simp only [List.head?_cons, Option.mem_def, Option.some.injEq] at hy
        have hxp : x ≤ prev := hlast x hx
        have : prev < t - (t - prev) * (1 / 100) := by
          have := hr.1
          linarith
        subst hy
        exact lt_of_le_of_lt hxp this
      · intro x hx
        rw [show (E :: (done ++ [t - (t - prev) * (1 / 100)])) =
            (E :: done) ++ [t - (t - prev) * (1 / 100)] by simp] at hx
        rw [List.getLast?_concat] at hx
        simp only [Option.mem_def, Option.some.injEq] at hx
        subst hx
        have := hr.1
        linarith
      · exact hr.2
    rw [hnew, frontRunAdj]
    simp

/-- The front-running loop of a signal that stays short throughout the loop
computes `frontRunAdjS` (mirror of `frontRunGo_long`). -/
lemma frontRunGo_short (E : ℚ) :
    ∀ (rest : List ℚ) (prev : ℚ) (done : List ℚ),
      prev ≤ E →
      List.Chain' (· > ·) (E :: done) →
      (∀ x ∈ (E :: done).getLast?, prev ≤ x) →
      List.Chain (· > ·) prev rest →
      frontRunGo none [E] rest prev done = done ++ frontRunAdjS prev rest := by
  intro rest
  induction rest with
  | nil =>
    intro prev done _ _ _ _
    simp [frontRunGo, frontRunAdjS]
  | cons t ts ih =>
    intro prev done hEp hchain hlast hr
    rw [List.chain_cons] at hr
    have hisL : isLongState none [E] (done ++ t :: ts) = false := by
      cases done with
      | nil =>
        simp only [isLongState, List.nil_append, List.headD_cons, decide_eq_false_iff_not, not_lt]
        exact le_of_lt (lt_of_lt_of_le hr.1 hEp)
      | cons d ds =>
        rw [List.chain'_cons] at hchain
        simp only [isLongState, List.cons_append, List.headD_cons, decide_eq_false_iff_not, not_lt]
        exact le_of_lt hchain.1
    rw [frontRunGo]
    simp only [hisL, Bool.false_eq_true, if_false]
    have hnew : frontRunGo none [E] ts t (done ++ [t + (prev - t) * (1 / 100)]) =
        (done ++ [t + (prev - t) * (1 / 100)]) ++ frontRunAdjS t ts := by
      apply ih
      · exact le_of_lt (lt_of_lt_of_le hr.1 hEp)
      · rw [show (E :: (done ++ [t + (prev - t) * (1 / 100)])) =
            (E :: done) ++ [t + (prev - t) * (1 / 100)] by simp]
        rw [List.chain'_append]
        refine ⟨hchain, List.chain'_singleton _, ?_⟩
        intro x hx y hy
        simp only [List.head?_cons, Option.mem_def, Option.some.injEq] at hy
        have hxp : prev ≤ x := hlast x hx
        have : t + (prev - t) * (1 / 100) < prev := by
          have := hr.1
          linarith
        subst hy
        exact lt_of_lt_of_le this hxp
      · intro x hx
        rw [show (E :: (done ++ [t + (prev - t) * (1 / 100)])) =
            (E :: done) ++ [t + (prev - t) * (1 / 100)] by simp] at hx
        rw [List.getLast?_concat] at hx
        simp only [Option.mem_def, Option.some.injEq] at hx
        subst hx
        have := hr.1
        linarith
      · exact hr.2
    rw [hnew, frontRunAdjS]
    simp

/-- The adjusted targets of a long signal stay a strict ascending chain above
the base point. -/
lemma frontRunAdj_chain :
    ∀ (u : List ℚ) (prev : ℚ), List.Chain (· < ·) prev u →
      List.Chain (· < ·) prev (frontRunAdj prev u) := by
  intro u
  induction u with
  | nil => intro prev _; exact List.Chain.nil
  | cons t ts ih =>
    intro prev h
    rw [List.chain_cons] at h
    rw [frontRunAdj, List.chain_cons]
    constructor
    · have := h.1; linarith
    · exact chain_lt_of_le (ih t h.2) (by have := h.1; linarith)

/-- The adjusted targets of a short signal stay a strict descending chain
below the base point. -/
lemma frontRunAdjS_chain :
    ∀ (u : List ℚ) (prev : ℚ), List.Chain (· > ·) prev u →
      List.Chain (· > ·) prev (frontRunAdjS prev u) := by
  intro u
  induction u with
  | nil => intro prev _; exact List.Chain.nil
  | cons t ts ih =>
    intro prev h
    rw [List.chain_cons] at h
    rw [frontRunAdjS, List.chain_cons]
    constructor
    · have := h.1; linarith
    · exact chain_gt_of_ge (ih t h.2) (by have := h.1; linarith)

/-- `monotoneFrom true` is the strict ascending chain predicate. -/
lemma monotoneFrom_true_chain :
    ∀ (ts : List ℚ) (prev : ℚ), monotoneFrom true prev ts = true →
      List.Chain (· < ·) prev ts := by
  intro ts
  induction ts with
  | nil => intro prev _; exact List.Chain.nil
  | cons t ts ih =>
    intro prev h
    simp only [monotoneFrom, Bool.and_eq_true, if_true, decide_eq_true_eq] at h
    exact List.chain_cons.mpr ⟨h.1, ih t h.2⟩

/-- `monotoneFrom false` is the strict descending chain predicate. -/
lemma monotoneFrom_false_chain :
    ∀ (ts : List ℚ) (prev : ℚ), monotoneFrom false prev ts = true →
      List.Chain (· > ·) prev ts := by
  intro ts
  induction ts with
  | nil => intro prev _; exact List.Chain.nil
  | cons t ts ih =>
    intro prev h
    simp only [monotoneFrom, Bool.and_eq_true, if_false, Bool.false_eq_true, decide_eq_true_eq] at h
    exact List.chain_cons.mpr ⟨h.1, ih t h.2⟩

/-- Closed form of `Signal.correct` for a single-entry signal whose prices all
receive the same factor `f` and whose raw targets ascend from the entry: the
corrected signal is long, keeps entry `e * f` and stop `v * f`, and its
targets are the front-run adjustment of the scaled raw targets. -/
lemma correct_closed_long (s : Signal) (price f e v : ℚ)
    (hiL : s.isLongOpt = none) (hent : s.entries = [e]) (hsl : s.sl = some v)
    (hfe : Signal.factor e price = f) (hfv : Signal.factor v price = f)
    (hft : ∀ p ∈ s.targets, Signal.factor p price = f)
    (hfpos : 0 < f) (hts : s.targets ≠ [])
    (hchain : List.Chain (· < ·) e s.targets) :
    (s.correct price).entries = [e * f] ∧
    (s.correct price).entry = e * f ∧
    (s.correct price).sl = some (v * f) ∧
    (s.correct price).wait_entry = decide (price < e * f) ∧
    (s.correct price).targets = frontRunAdj (e * f) (s.targets.map (· * f)) ∧
    (s.correct price).fraction = s.risk / ((e * f / (v * f) - 1) * s.leverage) ∧
    (s.correct price).is_long = true ∧
    (s.correct price).leverage = s.leverage ∧
    (s.correct price).risk = s.risk ∧
    (s.correct price).coin = s.coin := by
  obtain ⟨t0, ts', hts0⟩ := List.exists_cons_of_ne_nil hts
  have hchainU : List.Chain (· < ·) (e * f) (s.targets.map (· * f)) :=
    chain_lt_map_mul f hfpos _ e hchain
  have htmap : s.targets.map (fun i => i * Signal.factor i price) = s.targets.map (· * f) :=
    List.map_congr_left (fun p hp => by rw [hft p hp])
  have hemap : List.insertionSort (· ≤ ·)
      (s.entries.map fun i => i * Signal.factor i price) = [e * f] := by
    rw [hent]
    simp [List.insertionSort, List.orderedInsert, hfe]
  have hisL : isLongState none [e * f] (s.targets.map (· * f)) = true := by
    rw [hts0] at hchainU ⊢
    rw [List.map_cons] at hchainU ⊢
    rw [List.chain_cons] at hchainU
    simp only [isLongState, List.headD_cons, decide_eq_true_eq]
    exact hchainU.1
  have hfr : frontRunGo none [e * f] (s.targets.map (· * f)) (e * f) [] =
      frontRunAdj (e * f) (s.targets.map (· * f)) := by
    rw [frontRunGo_long (e * f) _ (e * f) [] (le_refl _) (List.chain'_singleton _)
      (by intro x hx; simp only [List.getLast?_singleton, Option.mem_def,
        Option.some.injEq] at hx; subst hx; exact le_refl _) hchainU]
    simp
  have hcorr : s.correct price =
      { s with
        entries := [e * f]
        targets := frontRunAdj (e * f) (s.targets.map (· * f))
        sl := some (v * f)
        wait_entry := decide (price < e * f)
        entry := e * f
        fraction := s.risk / ((e * f / (v * f) - 1) * s.leverage) } := by
    rw [Signal.correct, hemap, htmap, hiL, hsl, hisL]
    simp only [Bool.true_and, Bool.not_true, Bool.false_and, Bool.or_false,
      List.headD_cons, List.getLastD_cons, List.getLastD_nil, ite_self,
      eq_self_iff_true, if_true, hfr, hfv]
  have hadj : List.Chain (· < ·) (e * f) (frontRunAdj (e * f) (s.targets.map (· * f))) :=
    frontRunAdj_chain _ _ hchainU
  refine ⟨by rw [hcorr], by rw [hcorr], by rw [hcorr], by rw [hcorr], by rw [hcorr],
    by rw [hcorr], ?_, by rw [hcorr], by rw [hcorr], by rw [hcorr]⟩
  rw [hcorr]
  rw [hts0] at hadj ⊢
  rw [List.map_cons] at hadj ⊢
  rw [frontRunAdj] at hadj ⊢
  rw [List.chain_cons] at hadj
  simp only [Signal.is_long, isLongState, hiL, List.headD_cons, decide_eq_true_eq]
  exact hadj.1

/-- Closed form of `Signal.correct` for a single-entry signal whose prices all
receive the same factor `f` and whose raw targets descend from the entry
(mirror of `correct_closed_long`). -/
lemma correct_closed_short (s : Signal) (price f e v : ℚ)
    (hiL : s.isLongOpt = none) (hent : s.entries = [e]) (hsl : s.sl = some v)
    (hfe : Signal.factor e price = f) (hfv : Signal.factor v price = f)
    (hft : ∀ p ∈ s.targets, Signal.factor p price = f)
    (hfpos : 0 < f) (hts : s.targets ≠ [])
    (hchain : List.Chain (· > ·) e s.targets) :
    (s.correct price).entries = [e * f] ∧
    (s.correct price).entry = e * f ∧
    (s.correct price).sl = some (v * f) ∧
    (s.correct price).wait_entry = decide (price > e * f) ∧
    (s.correct price).targets = frontRunAdjS (e * f) (s.targets.map (· * f)) ∧
    (s.correct price).fraction = s.risk / ((1 - e * f / (v * f)) * s.leverage) ∧
    (s.correct price).is_long = false ∧
    (s.correct price).leverage = s.leverage ∧
    (s.correct price).risk = s.risk ∧
    (s.correct price).coin = s.coin := by
  obtain ⟨t0, ts', hts0⟩ := List.exists_cons_of_ne_nil hts
  have hchainU : List.Chain (· > ·) (e * f) (s.targets.map (· * f)) :=
    chain_gt_map_mul f hfpos _ e hchain
  have htmap : s.targets.map (fun i => i * Signal.factor i price) = s.targets.map (· * f) :=
    List.map_congr_left (fun p hp => by rw [hft p hp])
  have hemap : List.insertionSort (· ≤ ·)
      (s.entries.map fun i => i * Signal.factor i price) = [e * f] := by
    rw [hent]
    simp [List.insertionSort, List.orderedInsert, hfe]
  have hisL : isLongState none [e * f] (s.targets.map (· * f)) = false := by
    rw [hts0] at hchainU ⊢
    rw [List.map_cons] at hchainU ⊢
    rw [List.chain_cons] at hchainU
    simp only [isLongState, List.headD_cons, decide_eq_false_iff_not, not_lt]
    exact le_of_lt hchainU.1
  have hfr : frontRunGo none [e * f] (s.targets.map (· * f)) (e * f) [] =
      frontRunAdjS (e * f) (s.targets.map (· * f)) := by
    rw [frontRunGo_short (e * f) _ (e * f) [] (le_refl _) (List.chain'_singleton _)
      (by intro x hx; simp only [List.getLast?_singleton, Option.mem_def,
        Option.some.injEq] at hx; subst hx; exact le_refl _) hchainU]
    simp
  have hcorr : s.correct price =
      { s with
        entries := [e * f]
        targets := frontRunAdjS (e * f) (s.targets.map (· * f))
        sl := some (v * f)
        wait_entry := decide (price > e * f)
        entry := e * f
        fraction := s.risk / ((1 - e * f / (v * f)) * s.leverage) } := by
    rw [Signal.correct, hemap, htmap, hiL, hsl, hisL]
    simp only [Bool.false_eq_true, Bool.false_and, Bool.not_false, Bool.true_and,
      Bool.false_or, List.headD_cons, List.getLastD_cons, List.getLastD_nil,
      ite_self, eq_self_iff_true, if_false, if_true, hfr, hfv]
  have hadj : List.Chain (· > ·) (e * f) (frontRunAdjS (e * f) (s.targets.map (· * f))) :=
    frontRunAdjS_chain _ _ hchainU
  refine ⟨by rw [hcorr], by rw [hcorr], by rw [hcorr], by rw [hcorr], by rw [hcorr],
    by rw [hcorr], ?_, by rw [hcorr], by rw [hcorr], by rw [hcorr]⟩
  rw [hcorr]
  rw [hts0] at hadj ⊢
  rw [List.map_cons] at hadj ⊢
  rw [frontRunAdjS] at hadj ⊢
  rw [List.chain_cons] at hadj
  simp only [Signal.is_long, isLongState, hiL, List.headD_cons, decide_eq_false_iff_not, not_lt]
  exact le_of_lt hadj.1

/-- Unpack `uniformFactor`. -/
lemma uniformFactor_spec {s : Signal} {price f : ℚ} (h : uniformFactor s price f = true) :
    (∀ p ∈ s.entries, Signal.factor p price = f) ∧
    (∀ p ∈ s.targets, Signal.factor p price = f) ∧
    (∀ v, s.sl = some v → Signal.factor v price = f) := by
  simp only [uniformFactor, Bool.and_eq_true, List.all_eq_true, decide_eq_true_eq] at h
  obtain ⟨⟨h1, h2⟩, h3⟩ := h
  refine ⟨h1, h2, fun v hv => ?_⟩
  rw [hv] at h3
  simpa using h3

/-- The adjusted target is never equal to the raw target it comes from, as
long as the raw targets strictly ascend from the base point. -/
lemma frontRunAdj_ne :
    ∀ (u : List ℚ) (prev : ℚ), List.Chain (· < ·) prev u →
      ∀ i, i < u.length → (frontRunAdj prev u).getD i 0 ≠ u.getD i 0 := by
  intro u
  induction u with
  | nil => intro prev _ i hi; simp at hi
  | cons t ts ih =>
    intro prev h i hi
    rw [List.chain_cons] at h
    match i with
    | 0 =>
      rw [frontRunAdj]
      simp only [List.getD_cons_zero]
      intro heq
      have := h.1
      nlinarith [heq]
    | i + 1 =>
      rw [frontRunAdj]
      simp only [List.getD_cons_succ]
      exact ih t h.2 i (by simpa using hi)

/-- Mirror of `frontRunAdj_ne` for descending targets. -/
lemma frontRunAdjS_ne :
    ∀ (u : List ℚ) (prev : ℚ), List.Chain (· > ·) prev u →
      ∀ i, i < u.length → (frontRunAdjS prev u).getD i 0 ≠ u.getD i 0 := by
  intro u
  induction u with
  | nil => intro prev _ i hi; simp at hi
  | cons t ts ih =>
    intro prev h i hi
    rw [List.chain_cons] at h
    match i with
    | 0 =>
      rw [frontRunAdjS]
      simp only [List.getD_cons_zero]
      intro heq
      have := h.1
      nlinarith [heq]
    | i + 1 =>
      rw [frontRunAdjS]
      simp only [List.getD_cons_succ]
      exact ih t h.2 i (by simpa using hi)

/-- Direction and chain facts extracted from the constructor assertions of a
single-entry signal with a nonzero explicit stop loss. -/
lemma initOk_cases (s : Signal) (e v : ℚ)
    (hiL : s.isLongOpt = none) (hent : s.entries = [e]) (hsl : s.sl = some v)
    (hv0 : v ≠ 0) (hval : initOk s = true) :
    (s.targets.headD 0 > e ∧ List.Chain (· < ·) e s.targets ∧ v < e) ∨
    (¬ s.targets.headD 0 > e ∧ List.Chain (· > ·) e s.targets ∧ v > e) := by
  simp only [initOk, hiL, Option.isSome_none, Bool.false_eq_true, if_false, hent, hsl,
    List.headD_cons, List.getLastD_cons, List.getLastD_nil, if_neg hv0,
    Bool.and_eq_true] at hval
  by_cases hdir : s.targets.headD 0 > e
  · left
    rw [decide_eq_true hdir] at hval
    simp only [if_true, decide_eq_true_eq] at hval
    exact ⟨hdir, monotoneFrom_true_chain _ _ hval.1, hval.2⟩
  · right
    rw [decide_eq_false hdir] at hval
    simp only [Bool.false_eq_true, if_false, decide_eq_true_eq] at hval
    exact ⟨hdir, monotoneFrom_false_chain _ _ hval.1, hval.2⟩

/-- C1 (amended): for a single-entry signal with a nonzero explicit stop loss
that passes the constructor assertions, corrected against a mark price for
which all of its prices receive one common decimal factor `f > 0`, the
corrected stop loss `v * f` lies strictly on the losing side of the chosen
entry and the corrected targets progress strictly in the direction of profit:
`sl < entry < targets 0 < targets 1 < ...` when long, reversed when short. -/
theorem corrected_signal_ordering (s : Signal) (price f e v : ℚ)
    (hiL : s.isLongOpt = none) (hent : s.entries = [e]) (hsl : s.sl = some v)
    (hv0 : v ≠ 0) (hts : s.targets ≠ []) (hval : initOk s = true)
    (hf : uniformFactor s price f = true) (hfpos : 0 < f) :
    ((s.correct price).is_long = true →
      (s.correct price).sl = some (v * f) ∧
      v * f < (s.correct price).entry ∧
      List.Chain (· < ·) (s.correct price).entry (s.correct price).targets) ∧
    ((s.correct price).is_long = false →
      (s.correct price).sl = some (v * f) ∧
      (s.correct price).entry < v * f ∧
      List.Chain (· > ·) (s.correct price).entry (s.correct price).targets) := by
  obtain ⟨hfE, hfT, hfS⟩ := uniformFactor_spec hf
  have hfe : Signal.factor e price = f := hfE e (by rw [hent]; exact List.mem_singleton_self e)
  have hfv : Signal.factor v price = f := hfS v hsl
  rcases initOk_cases s e v hiL hent hsl hv0 hval with ⟨_, hchain, hve⟩ | ⟨_, hchain, hve⟩
  · obtain ⟨_, hE, hS, _, hT, _, hL, _, _, _⟩ :=
      correct_closed_long s price f e v hiL hent hsl hfe hfv hfT hfpos hts hchain
    constructor
    · intro _
      refine ⟨hS, ?_, ?_⟩
      · rw [hE]; exact mul_lt_mul_of_pos_right hve hfpos
      · rw [hE, hT]
        exact frontRunAdj_chain _ _ (chain_lt_map_mul f hfpos _ e hchain)
    · intro habs
      rw [hL] at habs
      exact absurd habs (by simp)
  · obtain ⟨_, hE, hS, _, hT, _, hL, _, _, _⟩ :=
      correct_closed_short s price f e v hiL hent hsl hfe hfv hfT hfpos hts hchain
    constructor
    · intro habs
      rw [hL] at habs
      exact absurd habs (by simp)
    · intro _
      refine ⟨hS, ?_, ?_⟩
      · rw [hE]; exact mul_lt_mul_of_pos_right hve hfpos
      · rw [hE, hT]
        exact frontRunAdjS_chain _ _ (chain_gt_map_mul f hfpos _ e hchain)

/-- A valid long signal with two entry candidates: `Signal("ETH", [10, 50],
[30, 60], sl=9)`.  At mark price 40 every price keeps factor 1, yet the
chosen entry is `entries[-1] = 50`, above the first corrected target. -/
def sigOrderingCex : Signal :=
  mkSignal "eth" [10, 50] [30, 60] (some 9) none none none false none none

/-- C1 counterexample: after `correct(40)` the signal is long with entry 50
but its first corrected target is 30.2, so `entry < targets[0]` fails: the
ordering claimed for every signal does not hold for multi-entry signals. -/
theorem corrected_signal_ordering_cex :
    initOk sigOrderingCex = true ∧
    uniformFactor sigOrderingCex 40 1 = true ∧
    (sigOrderingCex.correct 40).is_long = true ∧
    (sigOrderingCex.correct 40).entry = 50 ∧
    (sigOrderingCex.correct 40).targets.headD 0 = 151 / 5 ∧
    ¬ ((sigOrderingCex.correct 40).entry < (sigOrderingCex.correct 40).targets.headD 0) := by
  norm_num [sigOrderingCex, mkSignal, initOk, monotoneFrom, uniformFactor, Signal.correct,
    Signal.is_long, Signal.factor, factorAux, distAt, rabs, isLongState, frontRunGo,
    List.insertionSort, List.orderedInsert]

/-- A valid single-entry long signal used as witness input:
`Signal("ETH", [100], [110, 120], sl=90)` at mark price 100 (factor 1). -/
def sigOrderingW : Signal :=
  mkSignal "eth" [100] [110, 120] (some 90) none none none false none none

/-- Witness for C1 (amended) at `sigOrderingW`, mark price 100, factor 1. -/
theorem corrected_signal_ordering_witness :
    ((sigOrderingW.correct 100).is_long = true →
      (sigOrderingW.correct 100).sl = some (90 * 1) ∧
      (90 : ℚ) * 1 < (sigOrderingW.correct 100).entry ∧
      List.Chain (· < ·) (sigOrderingW.correct 100).entry (sigOrderingW.correct 100).targets) ∧
    ((sigOrderingW.correct 100).is_long = false →
      (sigOrderingW.correct 100).sl = some (90 * 1) ∧
      (sigOrderingW.correct 100).entry < 90 * 1 ∧
      List.Chain (· > ·) (sigOrderingW.correct 100).entry (sigOrderingW.correct 100).targets) :=
  corrected_signal_ordering sigOrderingW 100 1 100 90
    (by norm_num [sigOrderingW, mkSignal])
    (by norm_num [sigOrderingW, mkSignal, List.insertionSort, List.orderedInsert])
    (by norm_num [sigOrderingW, mkSignal])
    (by norm_num)
    (by simp [sigOrderingW, mkSignal])
    (by norm_num [sigOrderingW, mkSignal, initOk, monotoneFrom, List.insertionSort,
      List.orderedInsert])
    (by norm_num [sigOrderingW, mkSignal, uniformFactor, Signal.factor, factorAux,
      distAt, rabs, List.insertionSort, List.orderedInsert])
    (by norm_num)

/-- C9 (amended): for a single-entry signal as in C1, the corrected targets
are exactly the front-run adjustment of the factor-scaled raw targets: the
`i`-th corrected target is `t_i - 0.01 * (t_i - prev)` for a long signal and
`t_i + 0.01 * (prev - t_i)` for a short one, `prev` being the previous scaled
target (or the entry for the first).  When the common factor is 1 the
executed take-profit prices never equal the signal's raw targets. -/
theorem front_run_adjustment (s : Signal) (price f e v : ℚ)
    (hiL : s.isLongOpt = none) (hent : s.entries = [e]) (hsl : s.sl = some v)
    (hv0 : v ≠ 0) (hts : s.targets ≠ []) (hval : initOk s = true)
    (hf : uniformFactor s price f = true) (hfpos : 0 < f) :
    ((s.correct price).is_long = true →
      (s.correct price).targets = frontRunAdj (e * f) (s.targets.map (· * f))) ∧
    ((s.correct price).is_long = false →
      (s.correct price).targets = frontRunAdjS (e * f) (s.targets.map (· * f))) ∧
    (f = 1 → ∀ i, i < s.targets.length →
      (s.correct price).targets.getD i 0 ≠ s.targets.getD i 0) := by
  obtain ⟨hfE, hfT, hfS⟩ := uniformFactor_spec hf
  have hfe : Signal.factor e price = f := hfE e (by rw [hent]; exact List.mem_singleton_self e)
  have hfv : Signal.factor v price = f := hfS v hsl
  rcases initOk_cases s e v hiL hent hsl hv0 hval with ⟨_, hchain, _⟩ | ⟨_, hchain, _⟩
  · obtain ⟨_, _, _, _, hT, _, hL, _, _, _⟩ :=
      correct_closed_long s price f e v hiL hent hsl hfe hfv hfT hfpos hts hchain
    refine ⟨fun _ => hT, fun habs => absurd (hL.symm.trans habs) (by simp), ?_⟩
    rintro rfl i hi
    have hmap : s.targets.map (· * (1 : ℚ)) = s.targets := by simp
    rw [hT, hmap, mul_one]
    exact frontRunAdj_ne _ _ (by exact hchain) i hi
  · obtain ⟨_, _, _, _, hT, _, hL, _, _, _⟩ :=
      correct_closed_short s price f e v hiL hent hsl hfe hfv hfT hfpos hts hchain
    refine ⟨fun habs => absurd (hL.symm.trans habs) (by simp), fun _ => hT, ?_⟩
    rintro rfl i hi
    have hmap : s.targets.map (· * (1 : ℚ)) = s.targets := by simp
    rw [hT, hmap, mul_one]
    exact frontRunAdjS_ne _ _ (by exact hchain) i hi

/-- A valid long signal `Signal("XYZ", [0.1], [1], sl=0.05)`: at mark price 1
the entry's decimal factor is 10 while the target's is 1. -/
def sigFrontRunCex : Signal :=
  mkSignal "xyz" [1 / 10] [1] (some (5 / 100)) none none none false none none

/-- C9 counterexample: after `correct(1)` the corrected entry is 1 and the
front-run adjustment degenerates (`diff = 0`), so the executed take-profit
price equals the signal's raw target 1 - refuting "the executed take-profit
prices never equal the signal's raw targets". -/
theorem front_run_adjustment_cex :
    initOk sigFrontRunCex = true ∧
    sigFrontRunCex.targets = [1] ∧
    (sigFrontRunCex.correct 1).targets = [1] := by
  norm_num [sigFrontRunCex, mkSignal, initOk, monotoneFrom, Signal.correct, Signal.factor,
    factorAux, distAt, rabs, isLongState, frontRunGo, List.insertionSort, List.orderedInsert]

/-- Witness for C9 (amended) at `sigOrderingW`, mark price 100, factor 1. -/
theorem front_run_adjustment_witness :
    ((sigOrderingW.correct 100).is_long = true →
      (sigOrderingW.correct 100).targets =
        frontRunAdj (100 * 1) (sigOrderingW.targets.map (· * 1))) ∧
    ((sigOrderingW.correct 100).is_long = false →
      (sigOrderingW.correct 100).targets =
        frontRunAdjS (100 * 1) (sigOrderingW.targets.map (· * 1))) ∧
    ((1 : ℚ) = 1 → ∀ i, i < sigOrderingW.targets.length →
      (sigOrderingW.correct 100).targets.getD i 0 ≠ sigOrderingW.targets.getD i 0) :=
  front_run_adjustment sigOrderingW 100 1 100 90
    (by norm_num [sigOrderingW, mkSignal])
    (by norm_num [sigOrderingW, mkSignal, List.insertionSort, List.orderedInsert])
    (by norm_num [sigOrderingW, mkSignal])
    (by norm_num)
    (by simp [sigOrderingW, mkSignal])
    (by norm_num [sigOrderingW, mkSignal, initOk, monotoneFrom, List.insertionSort,
      List.orderedInsert])
    (by norm_num [sigOrderingW, mkSignal, uniformFactor, Signal.factor, factorAux,
      distAt, rabs, List.insertionSort, List.orderedInsert])
    (by norm_num)

/-! ## Leverage clamping (C10) -/

/-- C10: every constructed signal trades at leverage at least
`MIN_LEVERAGE = 25`: the constructor clamps the requested leverage to
`max(requested, 25)`, a missing (or falsy) leverage defaults to
`DEFAULT_LEVERAGE = 25`, and a request of 5x is clamped to 25x. -/
theorem leverage_clamped (coin : String) (entries targets : List ℚ) (sl : Option ℚ)
    (leverage risk_factor : Option ℚ) (is_long : Option Bool) (force_limit : Bool)
    (stop_percent : Option ℚ) (tag : Option String) :
    25 ≤ (mkSignal coin entries targets sl leverage risk_factor is_long force_limit
      stop_percent tag).leverage ∧
    (mkSignal coin entries targets sl none risk_factor is_long force_limit
      stop_percent tag).leverage = 25 ∧
    (mkSignal coin entries targets sl (some 5) risk_factor is_long force_limit
      stop_percent tag).leverage = 25 := by
  refine ⟨le_max_right _ _, by simp [mkSignal], by norm_num [mkSignal]⟩

/-! ## Order placement (`FuturesTrader._place_order`) -/

/-- The validation failures of `_place_order` that are decided before any
exchange call: `InsufficientQuantityException(alloc_q, alloc_funds, est_q,
est_funds)` and `EntryCrossedException(price)`.  (`PriceUnavailableException`
and the exchange `-2021` rejection depend on the live environment and are
outside this pure fragment.) -/
inductive PlaceErr where
  | insufficientQuantity (alloc_q alloc_funds est_q est_funds : ℚ)
  | entryCrossed (price : ℚ)
  deriving DecidableEq

/-- The parameters of the entry order submitted by `_place_order`.  `idKind`
is the client-order-id prefix (`wait-` for stop-limit entries, `mrkt-` for
market entries). -/
structure OrderReq where
  symbol : String
  positionSide : String
  side : String
  otype : String
  quantity : ℚ
  idKind : String
  stopPrice : Option ℚ
  price : Option ℚ
  deriving DecidableEq

/-- `FuturesTrader._place_order` (`trader/__init__.py` lines 239-307) after a
price is available: correct the signal, size the order from the account
balance and the corrected risk fraction, round the quantity
(`_round_qty`, passed in as `roundQty`), fail on the slippage check
(`PRICE_SLIPPAGE = 1.5`), fail when the price has crossed `max_entry`, else
submit a stop-limit (`wait_entry`) or market order. -/
def placeOrder (balance price : ℚ) (sig : Signal) (roundPrice roundQty : ℚ → ℚ) :
    Except PlaceErr OrderReq :=
  let c := sig.correct price
  let alloc_funds := balance * c.fraction
  let quantity := alloc_funds / (price / c.leverage)
  let qty := roundQty quantity
  let est_funds := qty * c.entry / c.leverage
  if est_funds / alloc_funds > 3 / 2 then
    .error (.insufficientQuantity quantity alloc_funds qty est_funds)
  else if (c.is_long && decide (price > c.max_entry)) ||
      (c.is_short && decide (price < c.max_entry)) then
    .error (.entryCrossed price)
  else
    .ok { symbol := c.coin ++ "USDT"
          positionSide := if c.is_long then "LONG" else "SHORT"
          side := if c.is_long then "BUY" else "SELL"
          otype := if c.wait_entry then "STOP" else "MARKET"
          quantity := qty
          idKind := if c.wait_entry then "wait-" else "mrkt-"
          stopPrice := if c.wait_entry then some (roundPrice c.entry) else none
          price := if c.wait_entry then some (roundPrice c.max_entry) else none }

/-- C4: for a direction-stable signal (single entry, one common factor) with
positive allocated funds, the allocation follows the spec's formulas: the
corrected fraction is `risk / (stop_distance * leverage)` with stop distance
`entry/sl - 1` for longs and `1 - entry/sl` for shorts, the submitted
quantity is the lot-rounded `alloc_funds * leverage / price`, and placement
fails with `InsufficientQuantityException` exactly when the rounded estimate
`qty * entry / leverage` exceeds the allocated funds by more than the
slippage multiplier 1.5. -/
theorem order_sizing (balance price f e v : ℚ) (s : Signal) (roundPrice roundQty : ℚ → ℚ)
    (hiL : s.isLongOpt = none) (hent : s.entries = [e]) (hsl : s.sl = some v)
    (hv0 : v ≠ 0) (hts : s.targets ≠ []) (hval : initOk s = true)
    (hf : uniformFactor s price f = true) (hfpos : 0 < f)
    (halloc : 0 < balance * (s.correct price).fraction) :
    ((s.correct price).is_long = true →
      (s.correct price).fraction =
        s.risk / (((s.correct price).entry / (s.correct price).sl.getD 0 - 1) * s.leverage)) ∧
    ((s.correct price).is_long = false →
      (s.correct price).fraction =
        s.risk / ((1 - (s.correct price).entry / (s.correct price).sl.getD 0) * s.leverage)) ∧
    roundQty (balance * (s.correct price).fraction / (price / (s.correct price).leverage)) =
      roundQty (balance * (s.correct price).fraction * (s.correct price).leverage / price) ∧
    (∀ req, placeOrder balance price s roundPrice roundQty = .ok req →
      req.quantity =
        roundQty (balance * (s.correct price).fraction / (price / (s.correct price).leverage))) ∧
    (placeOrder balance price s roundPrice roundQty =
        .error (.insufficientQuantity
          (balance * (s.correct price).fraction / (price / (s.correct price).leverage))
          (balance * (s.correct price).fraction)
          (roundQty (balance * (s.correct price).fraction / (price / (s.correct price).leverage)))
          (roundQty (balance * (s.correct price).fraction / (price / (s.correct price).leverage)) *
            (s.correct price).entry / (s.correct price).leverage)) ↔
      roundQty (balance * (s.correct price).fraction / (price / (s.correct price).leverage)) *
          (s.correct price).entry / (s.correct price).leverage >
        3 / 2 * (balance * (s.correct price).fraction)) := by
  obtain ⟨hfE, hfT, hfS⟩ := uniformFactor_spec hf
  have hfe : Signal.factor e price = f := hfE e (by rw [hent]; exact List.mem_singleton_self e)
  have hfv : Signal.factor v price = f := hfS v hsl
  have hdiv : balance * (s.correct price).fraction / (price / (s.correct price).leverage) =
      balance * (s.correct price).fraction * (s.correct price).leverage / price :=
    div_div_eq_mul_div _ _ _
  have hiff : (roundQty (balance * (s.correct price).fraction /
        (price / (s.correct price).leverage)) *
        (s.correct price).entry / (s.correct price).leverage /
        (balance * (s.correct price).fraction) > 3 / 2) ↔
      (roundQty (balance * (s.correct price).fraction / (price / (s.correct price).leverage)) *
        (s.correct price).entry / (s.correct price).leverage >
        3 / 2 * (balance * (s.correct price).fraction)) := lt_div_iff₀ halloc
  have hfrac :
      ((s.correct price).is_long = true →
        (s.correct price).fraction =
          s.risk / (((s.correct price).entry / (s.correct price).sl.getD 0 - 1) * s.leverage)) ∧
      ((s.correct price).is_long = false →
        (s.correct price).fraction =
          s.risk / ((1 - (s.correct price).entry / (s.correct price).sl.getD 0) * s.leverage)) := by
    rcases initOk_cases s e v hiL hent hsl hv0 hval with ⟨_, hchain, _⟩ | ⟨_, hchain, _⟩
    · obtain ⟨_, hE, hS, _, _, hFr, hL, _, _, _⟩ :=
        correct_closed_long s price f e v hiL hent hsl hfe hfv hfT hfpos hts hchain
      constructor
      · intro _
        rw [hFr, hE, hS]
        rfl
      · intro habs
        rw [hL] at habs
        exact absurd habs (by simp)
    · obtain ⟨_, hE, hS, _, _, hFr, hL, _, _, _⟩ :=
        correct_closed_short s price f e v hiL hent hsl hfe hfv hfT hfpos hts hchain
      constructor
      · intro habs
        rw [hL] at habs
        exact absurd habs (by simp)
      · intro _
        rw [hFr, hE, hS]
        rfl
  refine ⟨hfrac.1, hfrac.2, by rw [hdiv], ?_, ?_⟩
  · intro req hreq
    rw [placeOrder] at hreq
    by_cases h1 : roundQty (balance * (s.correct price).fraction /
        (price / (s.correct price).leverage)) *
        (s.correct price).entry / (s.correct price).leverage /
        (balance * (s.correct price).fraction) > 3 / 2
    · rw [if_pos h1] at hreq
      exact absurd hreq (by simp)
    · rw [if_neg h1] at hreq
      by_cases h2 : ((s.correct price).is_long && decide (price > (s.correct price).max_entry) ||
          (s.correct price).is_short && decide (price < (s.correct price).max_entry)) = true
      · rw [if_pos h2] at hreq
        exact absurd hreq (by simp)
      · rw [if_neg h2] at hreq
        rw [Except.ok.injEq] at hreq
        rw [← hreq]
  · rw [placeOrder]
    by_cases h1 : roundQty (balance * (s.correct price).fraction /
        (price / (s.correct price).leverage)) *
        (s.correct price).entry / (s.correct price).leverage /
        (balance * (s.correct price).fraction) > 3 / 2
    · rw [if_pos h1]
      exact ⟨fun _ => hiff.mp h1, fun _ => rfl⟩
    · rw [if_neg h1]
      constructor
      · intro habs
        by_cases h2 : ((s.correct price).is_long && decide (price > (s.correct price).max_entry) ||
            (s.correct price).is_short && decide (price < (s.correct price).max_entry)) = true
        · rw [if_pos h2] at habs
          exact absurd habs (by simp)
        · rw [if_neg h2] at habs
          exact absurd habs (by simp)
      · intro hgt
        exact absurd (hiff.mpr hgt) h1

/-- The spec's sizing example: `Signal("BTC", [39793.5], [40000, 41000,
41500], sl=39792, leverage=20)` (leverage clamps to 25). -/
def sigSizingW : Signal :=
  mkSignal "btc" [79587 / 2] [40000, 41000, 41500] (some 39792) (some 20) none none
    false none none

/-- Witness for C4 at `sigSizingW`, balance 1000, mark price 39900, factor 1,
with identity rounding. -/
theorem order_sizing_witness :
    ((sigSizingW.correct 39900).is_long = true →
      (sigSizingW.correct 39900).fraction =
        sigSizingW.risk / (((sigSizingW.correct 39900).entry /
          (sigSizingW.correct 39900).sl.getD 0 - 1) * sigSizingW.leverage)) ∧
    ((sigSizingW.correct 39900).is_long = false →
      (sigSizingW.correct 39900).fraction =
        sigSizingW.risk / ((1 - (sigSizingW.correct 39900).entry /
          (sigSizingW.correct 39900).sl.getD 0) * sigSizingW.leverage)) ∧
    (fun q : ℚ => q) (1000 * (sigSizingW.correct 39900).fraction /
        (39900 / (sigSizingW.correct 39900).leverage)) =
      (fun q : ℚ => q) (1000 * (sigSizingW.correct 39900).fraction *
        (sigSizingW.correct 39900).leverage / 39900) ∧
    (∀ req, placeOrder 1000 39900 sigSizingW (fun q : ℚ => q) (fun q : ℚ => q) = .ok req →
      req.quantity =
        (fun q : ℚ => q) (1000 * (sigSizingW.correct 39900).fraction /
          (39900 / (sigSizingW.correct 39900).leverage))) ∧
    (placeOrder 1000 39900 sigSizingW (fun q : ℚ => q) (fun q : ℚ => q) =
        .error (.insufficientQuantity
          (1000 * (sigSizingW.correct 39900).fraction /
            (39900 / (sigSizingW.correct 39900).leverage))
          (1000 * (sigSizingW.correct 39900).fraction)
          ((fun q : ℚ => q) (1000 * (sigSizingW.correct 39900).fraction /
            (39900 / (sigSizingW.correct 39900).leverage)))
          ((fun q : ℚ => q) (1000 * (sigSizingW.correct 39900).fraction /
            (39900 / (sigSizingW.correct 39900).leverage)) *
            (sigSizingW.correct 39900).entry / (sigSizingW.correct 39900).leverage)) ↔
      (fun q : ℚ => q) (1000 * (sigSizingW.correct 39900).fraction /
          (39900 / (sigSizingW.correct 39900).leverage)) *
          (sigSizingW.correct 39900).entry / (sigSizingW.correct 39900).leverage >
        3 / 2 * (1000 * (sigSizingW.correct 39900).fraction)) :=
  order_sizing 1000 39900 1 (79587 / 2) 39792 sigSizingW (fun q : ℚ => q) (fun q : ℚ => q)
    (by norm_num [sigSizingW, mkSignal])
    (by norm_num [sigSizingW, mkSignal, List.insertionSort, List.orderedInsert])
    (by norm_num [sigSizingW, mkSignal])
    (by norm_num)
    (by simp [sigSizingW, mkSignal])
    (by norm_num [sigSizingW, mkSignal, initOk, monotoneFrom, List.insertionSort,
      List.orderedInsert])
    (by norm_num [sigSizingW, mkSignal, uniformFactor, Signal.factor, factorAux,
      distAt, rabs, List.insertionSort, List.orderedInsert])
    (by norm_num)
    (by norm_num [sigSizingW, mkSignal, Signal.correct, Signal.factor, factorAux, distAt,
      rabs, isLongState, frontRunGo, List.insertionSort, List.orderedInsert])

/-- C7: when the live mark price has crossed the corrected signal's
`max_entry` guard - `entry + 0.2 * (first target - entry)` - in the direction
of the trade (above it for longs, below it for shorts), and the earlier
slippage check passes, `_place_order` fails with `EntryCrossedException` and
no entry order is submitted. -/
theorem entry_crossed_guard (balance price : ℚ) (s : Signal) (roundPrice roundQty : ℚ → ℚ)
    (hq : ¬ (roundQty (balance * (s.correct price).fraction /
        (price / (s.correct price).leverage)) *
        (s.correct price).entry / (s.correct price).leverage /
        (balance * (s.correct price).fraction) > 3 / 2))
    (hcross : ((s.correct price).is_long = true ∧ price > (s.correct price).max_entry) ∨
      ((s.correct price).is_long = false ∧ price < (s.correct price).max_entry)) :
    (s.correct price).max_entry =
      (s.correct price).entry +
        ((s.correct price).targets.headD 0 - (s.correct price).entry) * (2 / 10) ∧
    placeOrder balance price s roundPrice roundQty = .error (.entryCrossed price) := by
  refine ⟨rfl, ?_⟩
  rw [placeOrder, if_neg hq, if_pos]
  rcases hcross with ⟨hL, hp⟩ | ⟨hL, hp⟩
  · simp [hL, hp]
  · simp [Signal.is_short, hL, hp]

/-- A long signal whose guard price is crossed at mark price 103:
`Signal("ETH", [100], [110], sl=90)`, corrected guard
`100 + 0.2 * (109.9 - 100) = 101.98 < 103`. -/
def sigGuardW : Signal :=
  mkSignal "eth" [100] [110] (some 90) none none none false none none

/-- Witness for C7 at `sigGuardW`, balance 1000, mark price 103, identity
rounding. -/
theorem entry_crossed_guard_witness :
    (sigGuardW.correct 103).max_entry =
      (sigGuardW.correct 103).entry +
        ((sigGuardW.correct 103).targets.headD 0 - (sigGuardW.correct 103).entry) * (2 / 10) ∧
    placeOrder 1000 103 sigGuardW (fun q : ℚ => q) (fun q : ℚ => q) =
      .error (.entryCrossed 103) :=
  entry_crossed_guard 1000 103 sigGuardW (fun q : ℚ => q) (fun q : ℚ => q)
    (by norm_num [sigGuardW, mkSignal, Signal.correct, Signal.factor, factorAux, distAt,
      rabs, isLongState, frontRunGo, List.insertionSort, List.orderedInsert])
    (Or.inl ⟨by norm_num [sigGuardW, mkSignal, Signal.correct, Signal.is_long, Signal.factor,
      factorAux, distAt, rabs, isLongState, frontRunGo, List.insertionSort,
      List.orderedInsert],
      by norm_num [sigGuardW, mkSignal, Signal.correct, Signal.max_entry, Signal.factor,
        factorAux, distAt, rabs, isLongState, frontRunGo, List.insertionSort,
        List.orderedInsert]⟩)

/-! ## Signal admission (`_register_order_for_signal`) -/

/-- `FuturesTrader._cache_key` (`trader/__init__.py` lines 691-692):
`f"{signal.coin}_{signal.targets[0]}"`, modelled as the (coin, first target)
pair - the f-string is injective in these two components. -/
def cacheKey (s : Signal) : String × ℚ := (s.coin, s.targets.headD 0)

/-- `FuturesTrader._register_order_for_signal` (lines 677-685): reject when
the key is still cached, else cache it and accept.  The TTL cache is modelled
as the list of currently live (unexpired) keys; `sig_cache.expire()` is the
identity on that view. -/
def registerOrder (s : Signal) (cache : List (String × ℚ)) :
    Bool × List (String × ℚ) :=
  if cacheKey s ∈ cache then (false, cache)
  else (true, cacheKey s :: cache)

/-- Two BTC signals that differ in their first take-profit target. -/
def sigDupA : Signal :=
  mkSignal "btc" [40000] [41000, 42000] (some 39000) none none none false none none

/-- Same instrument as `sigDupA`, different first take-profit. -/
def sigDupB : Signal :=
  mkSignal "btc" [40000] [42000, 43000] (some 39000) none none none false none none

/-- C5 counterexample: `sigDupB` arrives while `sigDupA`'s reservation is
still cached and is for the same instrument, yet registration accepts it
(returns `True`): the de-duplication key is coin AND first take-profit, not
the instrument alone. -/
theorem register_dedup_cex :
    sigDupA.coin = sigDupB.coin ∧
    (registerOrder sigDupA []).1 = true ∧
    (registerOrder sigDupB (registerOrder sigDupA []).2).1 = true := by
  decide

/-- C5 (amended): registration rejects a second signal while the first's
reservation is still cached exactly in the situation that both signals share
the cache key - the instrument AND the first take-profit target; then the
second registration returns `False` and no second entry order is placed for
that instrument. -/
theorem register_dedup (s1 s2 : Signal) (cache : List (String × ℚ))
    (hkey : cacheKey s2 = cacheKey s1) :
    (registerOrder s2 (registerOrder s1 cache).2).1 = false := by
  rw [registerOrder]
  by_cases h : cacheKey s1 ∈ cache
  · rw [registerOrder, if_pos h, if_pos (hkey ▸ h)]
  · rw [registerOrder, if_neg h, if_pos (by rw [hkey]; exact List.mem_cons_self _ _)]

/-- Same instrument and same first take-profit as `sigDupA`. -/
def sigDupC : Signal :=
  mkSignal "btc" [39500] [41000, 43500] (some 39000) none none none false none none

/-- Witness for C5 (amended): `sigDupC` shares `sigDupA`'s cache key and its
registration is rejected while `sigDupA` is cached. -/
theorem register_dedup_witness :
    cacheKey sigDupC = cacheKey sigDupA ∧
    (registerOrder sigDupC (registerOrder sigDupA []).2).1 = false :=
  ⟨by decide, register_dedup sigDupA sigDupC [] (by decide)⟩

/-! ## The order-tracking map (`self.state["orders"]`) -/

/-- Client-order-id role tests of `OrderID` (`trader/__init__.py` lines
41-82).  (`String.startsWith`, written over `.data` so that concrete
instances evaluate.) -/
def OrderID.is_stop_loss (i : String) : Bool := List.isPrefixOf "stop-".data i.data

/-- `OrderID.is_wait`. -/
def OrderID.is_wait (i : String) : Bool := List.isPrefixOf "wait-".data i.data

/-- `OrderID.is_market`. -/
def OrderID.is_market (i : String) : Bool := List.isPrefixOf "mrkt-".data i.data

/-- `OrderID.is_target`. -/
def OrderID.is_target (i : String) : Bool := List.isPrefixOf "trgt-".data i.data

/-- One record of `self.state["orders"]`.  Python stores heterogeneous dicts:
entry orders carry the trade fields and the children lists, child records
carry only `parent`/`filled`.  Absent keys are modelled by the defaults
(`none`, `[]`, `0`); the places where Python would raise `KeyError` on a
truly absent key are modelled with `Option` results at the call sites. -/
structure OrderRec where
  qty : ℚ := 0
  sym : String := ""
  side : String := ""
  ent : ℚ := 0
  sl : ℚ := 0
  tgt : List ℚ := []
  fnd : ℚ := 0
  lev : ℚ := 0
  tag : Option String := none
  crt : ℤ := 0
  t_ord : List String := []
  t_q : List ℚ := []
  s_ord : Option String := none
  parent : Option String := none
  filled : Bool := false
  deriving DecidableEq

/-- The order map as an insertion-ordered association list with unique keys
(Python dict semantics). -/
abbrev StateMap := List (String × OrderRec)

/-- `self.state["orders"].get(k)`. -/
def mlookup (m : StateMap) (k : String) : Option OrderRec :=
  match m with
  | [] => none
  | (k2, v) :: rest => if k2 = k then some v else mlookup rest k

/-- `self.state["orders"][k] = v` (update in place, or append for a new
key). -/
def minsert (m : StateMap) (k : String) (v : OrderRec) : StateMap :=
  match m with
  | [] => [(k, v)]
  | (k2, v2) :: rest => if k2 = k then (k, v) :: rest else (k2, v2) :: minsert rest k v

/-- `self.state["orders"].pop(k, None)` (the map part). -/
def mpop (m : StateMap) (k : String) : StateMap :=
  match m with
  | [] => []
  | (k2, v2) :: rest => if k2 = k then rest else (k2, v2) :: mpop rest k

/-- Popping a key another key's lookup does not see is invisible. -/
lemma mlookup_mpop_ne (m : StateMap) (k k2 : String) (h : k ≠ k2) :
    mlookup (mpop m k2) k = mlookup m k := by
  induction m with
  | nil => rfl
  | cons hd rest ih =>
    obtain ⟨k3, v3⟩ := hd
    by_cases h3 : k3 = k2
    · rw [mpop, if_pos h3, mlookup, if_neg (by rw [h3]; exact fun hx => h hx.symm)]
    · rw [mpop, if_neg h3]
      by_cases h4 : k3 = k
      · rw [mlookup, if_pos h4, mlookup, if_pos h4]
      · rw [mlookup, if_neg h4, mlookup, if_neg h4, ih]

/-- A key outside the key list is not found. -/
lemma mlookup_eq_none_of_not_mem (m : StateMap) (k : String)
    (h : k ∉ m.map Prod.fst) : mlookup m k = none := by
  induction m with
  | nil => rfl
  | cons hd rest ih =>
    obtain ⟨k2, v2⟩ := hd
    rw [List.map_cons, List.mem_cons] at h
    push_neg at h
    rw [mlookup, if_neg (fun hx => h.1 hx.symm)]
    exact ih h.2

/-- With unique keys, a popped key is gone. -/
lemma mlookup_mpop_self (m : StateMap) (k : String) (hnd : (m.map Prod.fst).Nodup) :
    mlookup (mpop m k) k = none := by
  induction m with
  | nil => rfl
  | cons hd rest ih =>
    obtain ⟨k2, v2⟩ := hd
    rw [List.map_cons, List.nodup_cons] at hnd
    by_cases h2 : k2 = k
    · rw [mpop, if_pos h2]
      exact mlookup_eq_none_of_not_mem rest k (h2 ▸ hnd.1)
    · rw [mpop, if_neg h2, mlookup, if_neg h2]
      exact ih hnd.2

/-- A key already absent stays absent after a pop. -/
lemma mlookup_mpop_none (m : StateMap) (k k2 : String) (h : mlookup m k = none) :
    mlookup (mpop m k2) k = none := by
  induction m with
  | nil => rfl
  | cons hd rest ih =>
    obtain ⟨k3, v3⟩ := hd
    rw [mlookup] at h
    by_cases h3 : k3 = k
    · rw [if_pos h3] at h
      exact absurd h (by simp)
    · rw [if_neg h3] at h
      by_cases h4 : k3 = k2
      · rw [mpop, if_pos h4]
        exact h
      · rw [mpop, if_neg h4, mlookup, if_neg h3]
        exact ih h

/-- The keys of a popped map form a sublist of the original keys. -/
lemma mpop_keys_sublist (m : StateMap) (k : String) :
    ((mpop m k).map Prod.fst).Sublist (m.map Prod.fst) := by
  induction m with
  | nil => exact List.Sublist.refl _
  | cons hd rest ih =>
    obtain ⟨k2, v2⟩ := hd
    by_cases h2 : k2 = k
    · rw [mpop, if_pos h2, List.map_cons]
      exact List.sublist_cons_self _ _
    · rw [mpop, if_neg h2, List.map_cons, List.map_cons]
      exact ih.cons₂ _

/-- Popping preserves key uniqueness. -/
lemma nodup_mpop (m : StateMap) (k : String) (hnd : (m.map Prod.fst).Nodup) :
    ((mpop m k).map Prod.fst).Nodup :=
  (mpop_keys_sublist m k).nodup hnd

/-- A member of the popped list is gone after folding `mpop` (keys unique). -/
lemma mlookup_foldl_mpop_mem (l : List String) (m : StateMap) (k : String)
    (hnd : (m.map Prod.fst).Nodup) (hk : k ∈ l) :
    mlookup (l.foldl mpop m) k = none := by
  induction l generalizing m with
  | nil => exact absurd hk (List.not_mem_nil k)
  | cons c cs ih =>
    rw [List.foldl_cons]
    rcases List.mem_cons.mp hk with rfl | hk2
    · have h1 : mlookup (mpop m k) k = none := mlookup_mpop_self m k hnd
      clear ih hk hnd
      generalize mpop m k = m1 at h1
      induction cs generalizing m1 with
      | nil => exact h1
      | cons d ds ih2 => exact ih2 _ (mlookup_mpop_none m1 k d h1)
    · exact ih (mpop m c) (nodup_mpop m c hnd) hk2

/-- A non-member's lookup is untouched by folding `mpop`. -/
lemma mlookup_foldl_mpop_not_mem (l : List String) (m : StateMap) (k : String)
    (hk : k ∉ l) :
    mlookup (l.foldl mpop m) k = mlookup m k := by
  induction l generalizing m with
  | nil => rfl
  | cons c cs ih =>
    rw [List.foldl_cons, ih _ (fun hx => hk (List.mem_cons_of_mem _ hx)),
      mlookup_mpop_ne m k c (fun hx => hk (hx ▸ List.mem_cons_self _ _))]

/-- The stop-loss-filled branch of `FuturesTrader._handle_event`
(`trader/__init__.py` lines 402-413): pop the stop-loss record and its parent
entry, pop every take-profit child listed in the parent's `t_ord` and cancel
each on the exchange.  Returns the updated map and the cancel calls
`(client_order_id, symbol)`, `none` when Python would raise `KeyError`
(parent reference or parent record missing); an untracked order id is a
logged no-op. -/
def handleStopLossFill (order_id : String) (m : StateMap) :
    Option (StateMap × List (String × String)) :=
  match mlookup m order_id with
  | none => some (m, [])
  | some slRec =>
    let m1 := mpop m order_id
    match slRec.parent with
    | none => none
    | some p =>
      match mlookup m1 p with
      | none => none
      | some parent =>
        let m2 := mpop m1 p
        let m3 := parent.t_ord.foldl mpop m2
        some (m3, parent.t_ord.map (fun oid => (oid, parent.sym)))

/-- C2 (amended): when a fill for a tracked stop-loss id with a live parent is
processed, the handler removes the stop-loss record, the parent entry record
and every take-profit child listed in the parent's `t_ord`, cancels each of
those take-profit children, and touches nothing else.  (A previously replaced
stop-loss record of the same entry is not a listed child and survives until
the reconciliation pass removes it as an orphan.) -/
theorem stop_loss_cascade (m : StateMap) (slId p : String) (slRec pRec : OrderRec)
    (hnd : (m.map Prod.fst).Nodup)
    (hsl : mlookup m slId = some slRec)
    (hpar : slRec.parent = some p)
    (hpr : mlookup (mpop m slId) p = some pRec) :
    ∃ m2, handleStopLossFill slId m =
      some (m2, pRec.t_ord.map (fun oid => (oid, pRec.sym))) ∧
      mlookup m2 slId = none ∧
      mlookup m2 p = none ∧
      (∀ cid ∈ pRec.t_ord, mlookup m2 cid = none) ∧
      (∀ k, k ≠ slId → k ≠ p → k ∉ pRec.t_ord → mlookup m2 k = mlookup m k) := by
  have hndp : (((mpop m slId).map Prod.fst)).Nodup := nodup_mpop m slId hnd
  have hndpp : (((mpop (mpop m slId) p).map Prod.fst)).Nodup := nodup_mpop _ p hndp
  refine ⟨pRec.t_ord.foldl mpop (mpop (mpop m slId) p), ?_, ?_, ?_, ?_, ?_⟩
  · simp only [handleStopLossFill, hsl, hpar, hpr]
  · by_cases hin : slId ∈ pRec.t_ord
    · exact mlookup_foldl_mpop_mem _ _ _ hndpp hin
    · rw [mlookup_foldl_mpop_not_mem _ _ _ hin]
      exact mlookup_mpop_none _ _ _ (mlookup_mpop_self m slId hnd)
  · by_cases hin : p ∈ pRec.t_ord
    · exact mlookup_foldl_mpop_mem _ _ _ hndpp hin
    · rw [mlookup_foldl_mpop_not_mem _ _ _ hin]
      exact mlookup_mpop_self _ p hndp
  · intro cid hcid
    exact mlookup_foldl_mpop_mem _ _ _ hndpp hcid
  · intro k hk1 hk2 hk3
    rw [mlookup_foldl_mpop_not_mem _ _ _ hk3, mlookup_mpop_ne _ _ _ hk2,
      mlookup_mpop_ne _ _ _ hk1]

/-- The current stop-loss child of a bracket whose stop was already moved
once: the replaced record `stop-1` is still tracked (`_place_sl_order`
cancels the old order on the exchange but never pops its record). -/
def slRecW : OrderRec := { parent := some "mrkt-1" }

/-- The entry record of the bracket: two take-profit children and the current
stop-loss `stop-2`. -/
def pRecW : OrderRec :=
  { sym := "BTCUSDT", side := "BUY", qty := 2, ent := 100, sl := 90, tgt := [110, 120],
    t_ord := ["trgt-1", "trgt-2"], t_q := [1, 1], s_ord := some "stop-2",
    tag := some "TAG" }

/-- A reachable tracking map after entry fill, bracket placement, one
take-profit fill and one stop-loss move: the replaced stop-loss record
`stop-1` still references the entry. -/
def cexMapSL : StateMap :=
  [("mrkt-1", pRecW),
   ("trgt-1", { parent := some "mrkt-1", filled := true }),
   ("trgt-2", { parent := some "mrkt-1" }),
   ("stop-1", { parent := some "mrkt-1" }),
   ("stop-2", slRecW)]

/-- C2 counterexample: processing the fill of the live stop-loss `stop-2`
removes the stop-loss, the entry and both listed take-profit children and
cancels the take-profits, but the replaced stop-loss record `stop-1` - a
record whose `parent` references the entry - survives, so the map does not
hold zero records referencing that entry. -/
theorem stop_loss_cascade_cex :
    handleStopLossFill "stop-2" cexMapSL =
      some ([("stop-1", { parent := some "mrkt-1" })],
        [("trgt-1", "BTCUSDT"), ("trgt-2", "BTCUSDT")]) := by
  decide

/-- Witness for C2 (amended) on the same reachable map. -/
theorem stop_loss_cascade_witness :
    ∃ m2, handleStopLossFill "stop-2" cexMapSL =
      some (m2, pRecW.t_ord.map (fun oid => (oid, pRecW.sym))) ∧
      mlookup m2 "stop-2" = none ∧
      mlookup m2 "mrkt-1" = none ∧
      (∀ cid ∈ pRecW.t_ord, mlookup m2 cid = none) ∧
      (∀ k, k ≠ "stop-2" → k ≠ "mrkt-1" → k ∉ pRecW.t_ord →
        mlookup m2 k = mlookup cexMapSL k) :=
  stop_loss_cascade cexMapSL "stop-2" "mrkt-1" slRecW pRecW
    (by decide) (by decide) (by decide) (by decide)

/-! ## Stop-loss placement, trade closing and the take-profit fill handler -/

/-- `_round_price` and `_round_qty` for a symbol (they read exchange filter
metadata, so they are environment parameters here). -/
structure TraderCtx where
  roundPrice : String → ℚ → ℚ
  roundQty : String → ℚ → ℚ

/-- Parameters of a `futures_create_order` call. -/
structure CreateReq where
  symbol : String
  positionSide : String
  side : String
  otype : String
  quantity : ℚ
  price : Option ℚ := none
  stopPrice : Option ℚ := none
  clientId : Option String := none
  deriving DecidableEq

/-- `sym.replace("USDT", "")` via an explicit fuel so concrete instances
evaluate. -/
def replaceUSDTAux : ℕ → List Char → List Char
  | 0, l => l
  | fuel + 1, l =>
    match l with
    | [] => []
    | c :: rest =>
      if List.isPrefixOf ['U', 'S', 'D', 'T'] (c :: rest) then
        replaceUSDTAux fuel ((c :: rest).drop 4)
      else c :: replaceUSDTAux fuel rest

/-- `sym.replace("USDT", "")`. -/
def stripUSDT (s : String) : String := String.mk (replaceUSDTAux s.data.length s.data)

/-- `FuturesTrader._place_sl_order` (`trader/__init__.py` lines 451-487) on
its success path: cancel the previous stop-loss order if one is recorded,
create the new `STOP_MARKET` order under the fresh id, record it and point
the parent's `s_ord` at it.  (The old stop-loss *record* is not popped.)
`none` models the `KeyError` when the parent id is untracked. -/
def placeSLOrder (ctx : TraderCtx) (parent_id : String) (new_price quantity : Option ℚ)
    (m : StateMap) (freshId : String) :
    Option (StateMap × List CreateReq × List (String × String)) :=
  match mlookup m parent_id with
  | none => none
  | some odata =>
    let cancels := match odata.s_ord with | some old => [(old, odata.sym)] | none => []
    let req : CreateReq :=
      { symbol := odata.sym
        positionSide := if odata.side = "BUY" then "LONG" else "SHORT"
        side := if odata.side = "BUY" then "SELL" else "BUY"
        otype := "STOP_MARKET"
        quantity := ctx.roundQty odata.sym (match quantity with | some q => q | none => odata.qty)
        stopPrice := some (ctx.roundPrice odata.sym
          (match new_price with | some x => x | none => odata.sl))
        clientId := some freshId }
    let m1 := minsert m parent_id { odata with s_ord := some freshId }
    some (minsert m1 freshId { parent := some parent_id, filled := false }, [req], cancels)

/-- `FuturesTrader.close_trades` (`trader/__init__.py` lines 154-196): for
every record whose `tag` matches (and symbol, when a coin is given), cancel
all its children, then market-close the yet-unfilled take-profit quantity
(or, when nothing remains, cancel the entry order); finally pop the children
(the entry record itself is not popped). -/
def closeTrades (ctx : TraderCtx) (tag : Option String) (coin : Option String)
    (m : StateMap) : StateMap × List CreateReq × List (String × String) :=
  let step := fun (acc : List String × List CreateReq × List (String × String))
      (item : String × OrderRec) =>
    let (order_id, order) := item
    if order.tag ≠ tag then acc
    else if (match coin with
             | some c => decide (order.sym ≠ c ++ "USDT")
             | none => false) then acc
    else
      let (removed, created, cancels) := acc
      let children := order.t_ord ++ (match order.s_ord with | some s => [s] | none => [])
      let cancels1 := cancels ++ children.map (fun oid => (oid, order.sym))
      let quantity : ℚ := (order.t_ord.zip order.t_q).foldl
        (fun q pr => if ((mlookup m pr.1).map (fun r => r.filled)).getD false then q
                     else q + pr.2) 0
      if quantity > 0 then
        (removed ++ children,
         created ++ [{ symbol := order.sym
                       positionSide := if order.side = "BUY" then "LONG" else "SHORT"
                       side := if order.side = "BUY" then "SELL" else "BUY"
                       otype := "MARKET"
                       quantity := ctx.roundQty order.sym quantity }],
         cancels1)
      else (removed ++ children, created, cancels1 ++ [(order_id, order.sym)])
  let folded := m.foldl step ([], [], [])
  (folded.1.foldl mpop m, folded.2.1, folded.2.2)

/-- `FuturesTrader._move_stop_loss` (`trader/__init__.py` lines 418-449): mark
the take-profit filled; an unlisted take-profit closes the whole trade (or is
ignored when no stop-loss exists); the final take-profit tears the bracket
down (pop the parent, the listed children and the current stop-loss record,
cancel the stop-loss order); otherwise the stop-loss is re-placed at the
entry price for the remaining take-profit quantity.  `none` models the
`KeyError` paths (missing take-profit record, parent, or stop-loss). -/
def moveStopLoss (ctx : TraderCtx) (tp_id : String) (m : StateMap) (freshId : String) :
    Option (StateMap × List CreateReq × List (String × String)) :=
  match mlookup m tp_id with
  | none => none
  | some tp =>
    let m1 := minsert m tp_id { tp with filled := true }
    match tp.parent with
    | none => none
    | some p =>
      match mlookup m1 p with
      | none => none
      | some parent =>
        if tp_id ∈ parent.t_ord then
          if parent.t_ord.getLast? = some tp_id then
            let m2 := mpop m1 p
            let m3 := parent.t_ord.foldl mpop m2
            match parent.s_ord with
            | none => none
            | some sid =>
              match mlookup m3 sid with
              | none => none
              | some _ => some (mpop m3 sid, [], [(sid, parent.sym)])
          else
            let idx := parent.t_ord.indexOf tp_id
            let quantity := (parent.t_q.drop (idx + 1)).foldl (· + ·) 0
            placeSLOrder ctx p (some parent.ent) (some quantity) m1 freshId
        else
          if parent.s_ord = none then some (m1, [], [])
          else some (closeTrades ctx parent.tag (some (stripUSDT parent.sym)) m1)

/-- Updating a key leaves it looked up at the new value. -/
lemma mlookup_minsert_self (m : StateMap) (k : String) (v : OrderRec) :
    mlookup (minsert m k v) k = some v := by
  induction m with
  | nil => rw [minsert, mlookup, if_pos rfl]
  | cons hd rest ih =>
    obtain ⟨k2, v2⟩ := hd
    by_cases h2 : k2 = k
    · rw [minsert, if_pos h2, mlookup, if_pos rfl]
    · rw [minsert, if_neg h2, mlookup, if_neg h2]
      exact ih

/-- Updating one key leaves the others untouched. -/
lemma mlookup_minsert_ne (m : StateMap) (k k2 : String) (v : OrderRec) (h : k2 ≠ k) :
    mlookup (minsert m k v) k2 = mlookup m k2 := by
  induction m with
  | nil =>
    simp only [minsert, mlookup]
    rw [if_neg (fun hx => h hx.symm)]
  | cons hd rest ih =>
    obtain ⟨k3, v3⟩ := hd
    by_cases h3 : k3 = k
    · rw [minsert, if_pos h3, mlookup, if_neg (fun hx => h hx.symm), mlookup,
        if_neg (fun hx => h (h3 ▸ hx).symm)]
    · rw [minsert, if_neg h3, mlookup, mlookup]
      by_cases h4 : k3 = k2
      · rw [if_pos h4, if_pos h4]
      · rw [if_neg h4, if_neg h4]
        exact ih

/-- Updating a present key does not change the key list. -/
lemma minsert_keys_of_mem (m : StateMap) (k : String) (v w : OrderRec)
    (h : mlookup m k = some w) : (minsert m k v).map Prod.fst = m.map Prod.fst := by
  induction m with
  | nil => exact absurd h (by rw [mlookup]; simp)
  | cons hd rest ih =>
    obtain ⟨k2, v2⟩ := hd
    by_cases h2 : k2 = k
    · rw [minsert, if_pos h2, List.map_cons, List.map_cons, h2]
    · rw [mlookup, if_neg h2] at h
      rw [minsert, if_neg h2, List.map_cons, List.map_cons, ih h]

/-- An absent key stays absent after folding pops. -/
lemma mlookup_foldl_mpop_none (l : List String) (m : StateMap) (k : String)
    (h : mlookup m k = none) : mlookup (l.foldl mpop m) k = none := by
  induction l generalizing m with
  | nil => exact h
  | cons c cs ih =>
    rw [List.foldl_cons]
    exact ih _ (mlookup_mpop_none _ _ _ h)

/-- Folding pops preserves key uniqueness. -/
lemma nodup_foldl_mpop (l : List String) (m : StateMap)
    (hnd : (m.map Prod.fst).Nodup) : ((l.foldl mpop m).map Prod.fst).Nodup := by
  induction l generalizing m with
  | nil => exact hnd
  | cons c cs ih =>
    rw [List.foldl_cons]
    exact ih _ (nodup_mpop _ _ hnd)

/-- C3 (amended): when the filled take-profit is the last listed child of its
live parent, `_move_stop_loss` pops the parent entry record, every take-profit
child listed in the parent's `t_ord` and the parent's current stop-loss
record, cancels the stop-loss order on the exchange, and touches nothing
else.  (A previously replaced stop-loss record of the same entry is not the
current `s_ord` and survives until reconciliation removes it as an
orphan.) -/
theorem final_tp_teardown (ctx : TraderCtx) (m : StateMap) (tpId p sid fid : String)
    (tpRec pRec : OrderRec)
    (hnd : (m.map Prod.fst).Nodup)
    (htp : mlookup m tpId = some tpRec)
    (hpar : tpRec.parent = some p)
    (hne : tpId ≠ p)
    (hp : mlookup m p = some pRec)
    (hin : tpId ∈ pRec.t_ord)
    (hlast : pRec.t_ord.getLast? = some tpId)
    (hs : pRec.s_ord = some sid)
    (hsid_ne_p : sid ≠ p)
    (hsid_nin : sid ∉ pRec.t_ord)
    (hsid : (mlookup m sid).isSome = true) :
    ∃ m4, moveStopLoss ctx tpId m fid = some (m4, [], [(sid, pRec.sym)]) ∧
      mlookup m4 p = none ∧
      (∀ cid ∈ pRec.t_ord, mlookup m4 cid = none) ∧
      mlookup m4 sid = none ∧
      (∀ k, k ≠ p → k ∉ pRec.t_ord → k ≠ sid → mlookup m4 k = mlookup m k) := by
  have hsid_ne_tp : sid ≠ tpId := fun hx => hsid_nin (hx ▸ hin)
  have hnd1 : ((minsert m tpId { tpRec with parent := some p, filled := true }).map Prod.fst).Nodup := by
    rw [minsert_keys_of_mem m tpId _ tpRec htp]
    exact hnd
  have hm1p : mlookup (minsert m tpId { tpRec with parent := some p, filled := true }) p = some pRec := by
    rw [mlookup_minsert_ne _ _ _ _ (fun hx => hne hx.symm)]
    exact hp
  have hnd2 : ((mpop (minsert m tpId { tpRec with parent := some p, filled := true }) p).map Prod.fst).Nodup :=
    nodup_mpop _ _ hnd1
  have hnd3 : ((pRec.t_ord.foldl mpop
      (mpop (minsert m tpId { tpRec with parent := some p, filled := true }) p)).map Prod.fst).Nodup :=
    nodup_foldl_mpop _ _ hnd2
  have hm3sid : mlookup (pRec.t_ord.foldl mpop
      (mpop (minsert m tpId { tpRec with parent := some p, filled := true }) p)) sid = mlookup m sid := by
    rw [mlookup_foldl_mpop_not_mem _ _ _ hsid_nin, mlookup_mpop_ne _ _ _ hsid_ne_p,
      mlookup_minsert_ne _ _ _ _ hsid_ne_tp]
  obtain ⟨sidRec, hsidRec⟩ := Option.isSome_iff_exists.mp hsid
  have hrun : moveStopLoss ctx tpId m fid =
      some (mpop (pRec.t_ord.foldl mpop
        (mpop (minsert m tpId { tpRec with parent := some p, filled := true }) p)) sid, [],
        [(sid, pRec.sym)]) := by
    simp only [moveStopLoss, htp, hpar, hm1p, hs, hm3sid, hsidRec]
    rw [if_pos hin, if_pos hlast]
  refine ⟨_, hrun, ?_, ?_, ?_, ?_⟩
  · rw [mlookup_mpop_ne _ _ _ (fun hx => hsid_ne_p hx.symm)]
    by_cases hpin : p ∈ pRec.t_ord
    · exact mlookup_foldl_mpop_mem _ _ _ hnd2 hpin
    · rw [mlookup_foldl_mpop_not_mem _ _ _ hpin]
      exact mlookup_mpop_self _ _ hnd1
  · intro cid hcid
    exact mlookup_mpop_none _ _ _ (mlookup_foldl_mpop_mem _ _ _ hnd2 hcid)
  · exact mlookup_mpop_self _ _ hnd3
  · intro k hk1 hk2 hk3
    rw [mlookup_mpop_ne _ _ _ hk3, mlookup_foldl_mpop_not_mem _ _ _ hk2,
      mlookup_mpop_ne _ _ _ hk1,
      mlookup_minsert_ne _ _ _ _ (fun hx => hk2 (by rw [hx]; exact hin))]

/-- Identity rounding context for concrete runs. -/
def idCtx : TraderCtx := { roundPrice := fun _ q => q, roundQty := fun _ q => q }

/-- C3 counterexample: the final take-profit `trgt-2` of the bracket in
`cexMapSL` fills; the teardown pops the entry, both listed take-profits and
the current stop-loss `stop-2` and cancels it, but the replaced stop-loss
record `stop-1` - an order record referencing the entry id - remains
tracked. -/
theorem final_tp_teardown_cex :
    moveStopLoss idCtx "trgt-2" cexMapSL "stop-gen1" =
      some ([("stop-1", { parent := some "mrkt-1" })], [], [("stop-2", "BTCUSDT")]) := by
  decide

/-- Witness for C3 (amended) on the same reachable map. -/
theorem final_tp_teardown_witness :
    ∃ m4, moveStopLoss idCtx "trgt-2" cexMapSL "stop-gen1" =
      some (m4, [], [("stop-2", pRecW.sym)]) ∧
      mlookup m4 "mrkt-1" = none ∧
      (∀ cid ∈ pRecW.t_ord, mlookup m4 cid = none) ∧
      mlookup m4 "stop-2" = none ∧
      (∀ k, k ≠ "mrkt-1" → k ∉ pRecW.t_ord → k ≠ "stop-2" →
        mlookup m4 k = mlookup cexMapSL k) :=
  final_tp_teardown idCtx cexMapSL "trgt-2" "mrkt-1" "stop-2" "stop-gen1"
    { parent := some "mrkt-1" } pRecW
    (by decide) (by decide) (by decide) (by decide) (by decide) (by decide)
    (by decide) (by decide) (by decide) (by decide) (by decide)

/-! ## The reconciliation watchdog
(`_watch_orders` / `_expire_outdated_orders_and_get_open_symbols`) -/

/-- Generic association-list lookup (Python `dict.get`). -/
def alookup {α : Type} : List (String × α) → String → Option α
  | [], _ => none
  | (k2, v) :: rest, k => if k2 = k then some v else alookup rest k

/-- One exchange snapshot consumed by a reconciliation cycle: the non-zero
positions (`futures_account`), the open orders (`futures_get_open_orders`,
as `(clientOrderId, symbol)` in exchange order) and the per-order terminal
status oracle (`futures_get_order` returned `FILLED`; fetch errors and
not-found both read as `false`, as the code treats them). -/
structure Snapshot where
  positions : List (String × String × ℚ)
  openOrders : List (String × String)
  fetchFilled : String → Bool

/-- `positions[sym+side] = amt` for non-`BOTH`, non-zero positions
(`trader/__init__.py` lines 529-533). -/
def buildPositions (ps : List (String × String × ℚ)) : List (String × ℚ) :=
  ps.foldl (fun acc p =>
    if p.2.1 = "BOTH" ∨ p.2.2 = 0 then acc else acc ++ [(p.1 ++ p.2.1, p.2.2)]) []

/-- The first loop over the open orders (lines 538-543): collect the open
symbols of entry orders and clear the `filled` flag of tracked bracket
children that are still open. -/
def phase1 (openOrders : List (String × String)) (m : StateMap) :
    List String × StateMap :=
  openOrders.foldl (fun acc od =>
    let (oid, sym) := od
    if OrderID.is_market oid || OrderID.is_wait oid then
      (acc.1 ++ [sym.dropRight 4], acc.2)
    else
      match mlookup acc.2 oid with
      | some odata =>
        if OrderID.is_target oid || OrderID.is_stop_loss oid then
          (acc.1, minsert acc.2 oid { odata with filled := false })
        else acc
      | none => acc) ([], m)

/-- Accumulator of the main reconciliation loop. -/
structure P2Acc where
  m : StateMap
  removed : List String
  slOrders : List String
  created : List CreateReq
  supply : List String

/-- Accumulator of the per-entry child sweep. -/
structure SweepAcc where
  m : StateMap
  t_ord : List String
  hit : List Bool
  slOrders : List String
  created : List CreateReq
  supply : List String

/-- The `order_hit` / recreation loop over `children = [s_ord] + t_ord`
(lines 583-599): record each child's fill flag; a missing stop-loss slot is
deferred to `sl_orders`, a missing take-profit is recreated immediately
(`_create_target_order` on its success path, consuming one fresh client id)
and written into the parent's `t_ord`. -/
def sweepStep (ctx : TraderCtx) (oid : String) (odata : OrderRec)
    (st : SweepAcc) (pr : ℕ × String) : SweepAcc :=
  let (i, cid) := pr
  let cdata := mlookup st.m cid
  let st1 := { st with hit := st.hit ++ [(cdata.map (fun r => r.filled)).getD false] }
  match cdata with
  | some _ => st1
  | none =>
    if i = 0 then { st1 with slOrders := st1.slOrders ++ [oid] }
    else
      let tgt_id := st1.supply.headD ""
      let req : CreateReq :=
        { symbol := odata.sym
          positionSide := if odata.side = "BUY" then "LONG" else "SHORT"
          side := if odata.side = "BUY" then "SELL" else "BUY"
          otype := "LIMIT"
          quantity := odata.t_q.getD (i - 1) 0
          price := some (ctx.roundPrice odata.sym (odata.tgt.getD (i - 1) 0))
          clientId := some tgt_id }
      { st1 with
        m := minsert st1.m tgt_id { parent := some oid, filled := false }
        t_ord := st1.t_ord.set (i - 1) tgt_id
        created := st1.created ++ [req]
        supply := st1.supply.tail }

/-- One iteration of the main loop over the frozen item list (lines 546-601):
flag orphaned bracket children; then, for an old filled (no longer open)
entry with a stop-loss slot, either flag it for removal when its position is
gone, or sweep its children against the exchange (mark fetched fills, pop
missing records, recreate missing take-profits) and flag the entry when the
stop-loss or all take-profits have filled.  `now - crt < 300` is
`NEW_ORDER_TIMEOUT`.  The `t_ord` write-back models Python's in-place list
mutation: it applies only while the map still holds the iterated record
(object identity approximated by value identity). -/
def phase2step (ctx : TraderCtx) (snap : Snapshot) (positions : List (String × ℚ))
    (now : ℤ) (acc : P2Acc) (item : String × OrderRec) : P2Acc :=
  let (oid, odata) := item
  let acc1 :=
    if (OrderID.is_target oid || OrderID.is_stop_loss oid) &&
        (match odata.parent with
         | some pp => (mlookup acc.m pp).isNone
         | none => true) then
      { acc with removed := acc.removed ++ [oid] }
    else acc
  if ¬ (OrderID.is_wait oid || OrderID.is_market oid) then acc1
  else if (alookup snap.openOrders oid).isSome then acc1
  else if now - odata.crt < 300 then acc1
  else
    match odata.s_ord with
    | none => acc1
    | some sOrd =>
      let side := if odata.side = "BUY" then "LONG" else "SHORT"
      if (alookup positions (odata.sym ++ side)).isNone then
        { acc1 with removed := acc1.removed ++ [oid] }
      else
        let children := sOrd :: odata.t_ord
        let m2 := children.foldl (fun mm cid =>
          if (alookup snap.openOrders cid).isSome then mm
          else if snap.fetchFilled cid then
            minsert mm cid { parent := some oid, filled := true }
          else mpop mm cid) acc1.m
        let sweep := children.enum.foldl (sweepStep ctx oid odata)
          { m := m2
            t_ord := odata.t_ord
            hit := []
            slOrders := acc1.slOrders
            created := acc1.created
            supply := acc1.supply }
        let mDone :=
          if mlookup sweep.m oid = some odata then
            minsert sweep.m oid { odata with t_ord := sweep.t_ord }
          else sweep.m
        let acc2 := { acc1 with
          m := mDone
          slOrders := sweep.slOrders
          created := sweep.created
          supply := sweep.supply }
        if sweep.hit.headD false || (sweep.hit.drop 1).all (fun b => b) then
          { acc2 with removed := acc2.removed ++ [oid] }
        else acc2

/-- The removal loop (lines 603-615): pop every flagged id; for a flagged
entry order that was still tracked, pop its recorded children too and cancel
the unfilled ones. -/
def phase3 (removed : List String) (m0 : StateMap) :
    StateMap × List (String × String) :=
  removed.foldl (fun acc oid =>
    let parentOpt := mlookup acc.1 oid
    let mm1 := mpop acc.1 oid
    if ¬ (OrderID.is_wait oid || OrderID.is_market oid) then (mm1, acc.2)
    else
      match parentOpt with
      | none => (mm1, acc.2)
      | some parent =>
        let children := (match parent.s_ord with | some s => [s] | none => []) ++
          parent.t_ord
        children.foldl (fun acc2 cid =>
          let c := mlookup acc2.1 cid
          let mm3 := mpop acc2.1 cid
          match c with
          | some crec =>
            if crec.filled then (mm3, acc2.2) else (mm3, acc2.2 ++ [(cid, parent.sym)])
          | none => (mm3, acc2.2)) (mm1, acc.2)) (m0, [])

/-- The `sl_orders` fixup (lines 617-622): for each deferred entry, the first
take-profit child recorded as filled (if any). -/
def phase4 (slOrders : List String) (m : StateMap) : List (String × Option String) :=
  slOrders.map (fun oid =>
    (oid, match mlookup m oid with
      | none => none
      | some od => od.t_ord.find? (fun tid =>
          ((mlookup m tid).map (fun r => r.filled)).getD false)))

/-- The final `sl_orders` walk (lines 624-628): replay the missed take-profit
fill through `_move_stop_loss`, or re-place the missing stop-loss.  A
`KeyError` path aborts the rest of the cycle (the exception propagates to
`_watch_orders`); one fresh id is consumed per `_place_sl_order` call. -/
def phase5 (ctx : TraderCtx) :
    List (String × Option String) → StateMap → List CreateReq →
      List (String × String) → List String →
      StateMap × List CreateReq × List (String × String) × List String × Bool
  | [], m, cr, cc, sup => (m, cr, cc, sup, false)
  | (oid, tp?) :: rest, m, cr, cc, sup =>
    match tp? with
    | some tid =>
      let fresh := sup.headD ""
      match moveStopLoss ctx tid m fresh with
      | some (m2, cr2, cc2) =>
        phase5 ctx rest m2 (cr ++ cr2) (cc ++ cc2)
          (if cr2.any (fun r => r.clientId = some fresh) then sup.tail else sup)
      | none => (m, cr, cc, sup, true)
    | none =>
      let fresh := sup.headD ""
      match placeSLOrder ctx oid none none m fresh with
      | some (m2, cr2, cc2) => phase5 ctx rest m2 (cr ++ cr2) (cc ++ cc2) sup.tail
      | none => (m, cr, cc, sup, true)

/-- The wait-order expiry loop of `_watch_orders` (lines 504-518): cancel and
pop every `wait-` entry without bracket children whose age passed
`WAIT_ORDER_EXPIRY = 86400` seconds. -/
def phase6 (now : ℤ) (m : StateMap) : StateMap × List (String × String) :=
  let expired := m.foldl (fun acc item =>
    if ¬ OrderID.is_wait item.1 then acc
    else if item.2.t_ord ≠ [] then acc
    else if now < item.2.crt + 86400 then acc
    else acc ++ [(item.1, item.2.sym)]) []
  (expired.foldl (fun mm pr => mpop mm pr.1) m, expired)

/-- The outcome of one reconciliation cycle. -/
structure WatchResult where
  state : StateMap
  created : List CreateReq
  cancels : List (String × String)
  openSymbols : List String
  supplyRest : List String
  aborted : Bool
  deriving DecidableEq

/-- One full watchdog cycle against a fixed exchange snapshot:
`_expire_outdated_orders_and_get_open_symbols` followed by `_watch_orders`'s
wait-order expiry (the price-stream resubscription only touches
`state["streams"]` and the price cache, not the order map, and is out of
scope).  Exchange order creation is modelled on its success path, with fresh
client ids drawn from `supply`. -/
def watchdogCycle (ctx : TraderCtx) (snap : Snapshot) (now : ℤ) (m : StateMap)
    (supply : List String) : WatchResult :=
  let positions := buildPositions snap.positions
  let p1 := phase1 snap.openOrders m
  let p2 := p1.2.foldl (phase2step ctx snap positions now)
    { m := p1.2, removed := [], slOrders := [], created := [], supply := supply }
  let p3 := phase3 p2.removed p2.m
  let pairs := phase4 p2.slOrders p3.1
  let p5 := phase5 ctx pairs p3.1 p2.created p3.2 p2.supply
  if p5.2.2.2.2 then
    { state := p5.1, created := p5.2.1, cancels := p5.2.2.1, openSymbols := [],
      supplyRest := p5.2.2.2.1, aborted := true }
  else
    let p6 := phase6 now p5.1
    { state := p6.1, created := p5.2.1, cancels := p5.2.2.1 ++ p6.2,
      openSymbols := p1.1, supplyRest := p5.2.2.2.1, aborted := false }

/-- A bracketed position whose second take-profit order exists in the
tracking map but not on the exchange (e.g. it was never placed, or was
cancelled manually): the watchdog must recreate it. -/
def pRecC6 : OrderRec :=
  { sym := "BTCUSDT", side := "BUY", qty := 2, ent := 100, sl := 90, tgt := [110, 120],
    t_ord := ["trgt-1", "trgt-2"], t_q := [1, 1], s_ord := some "stop-2",
    tag := some "TAG", crt := 0 }

/-- Tracking map for the C6 counterexample. -/
def mC6 : StateMap :=
  [("mrkt-1", pRecC6),
   ("trgt-1", { parent := some "mrkt-1" }),
   ("trgt-2", { parent := some "mrkt-1" }),
   ("stop-2", { parent := some "mrkt-1" })]

/-- Exchange snapshot for the C6 counterexample: the position is live, the
stop-loss and the first take-profit are open, the second take-profit is
missing and not filled. -/
def snapC6 : Snapshot :=
  { positions := [("BTCUSDT", "LONG", 2)]
    openOrders := [("stop-2", "BTCUSDT"), ("trgt-1", "BTCUSDT")]
    fetchFilled := fun _ => false }

/-- The first reconciliation run: it recreates the missing take-profit. -/
def runC6a : WatchResult := watchdogCycle idCtx snapC6 1000 mC6 ["trgt-g1", "trgt-g2"]

/-- The second reconciliation run against the SAME unchanged snapshot. -/
def runC6b : WatchResult :=
  watchdogCycle idCtx snapC6 1000 runC6a.state runC6a.supplyRest

/-- C6 counterexample: run twice against the same unchanged open-orders and
positions snapshot, the pass is not idempotent - the first run recreates the
missing take-profit, and because the unchanged snapshot still does not list
the recreated order, the second run pops it and creates yet another
take-profit order, mutating the tracking map again. -/
theorem watchdog_idempotent_cex :
    runC6a.created ≠ [] ∧ runC6b.created ≠ [] ∧ runC6b.state ≠ runC6a.state := by
  decide

/-- C6 (amended): the reconciliation cycle is a deterministic function of the
snapshot and the tracking map, so whenever a run performs no repairs - it
creates no orders, consumes no fresh order ids and leaves the tracking map
unchanged - running it again against the same unchanged snapshot is a
complete no-op: it returns the identical result, creates no orders and
leaves the map unchanged.  (When the first run does repair something,
rerunning against the literally unchanged snapshot repeats the repair, as
the counterexample shows.) -/
theorem watchdog_idempotent (ctx : TraderCtx) (snap : Snapshot) (now : ℤ)
    (m : StateMap) (supply : List String)
    (hstate : (watchdogCycle ctx snap now m supply).state = m)
    (hsupply : (watchdogCycle ctx snap now m supply).supplyRest = supply)
    (hcreate : (watchdogCycle ctx snap now m supply).created = []) :
    watchdogCycle ctx snap now (watchdogCycle ctx snap now m supply).state
        (watchdogCycle ctx snap now m supply).supplyRest =
      watchdogCycle ctx snap now m supply ∧
    (watchdogCycle ctx snap now (watchdogCycle ctx snap now m supply).state
        (watchdogCycle ctx snap now m supply).supplyRest).created = [] ∧
    (watchdogCycle ctx snap now (watchdogCycle ctx snap now m supply).state
        (watchdogCycle ctx snap now m supply).supplyRest).state = m := by
  rw [hstate, hsupply]
  exact ⟨rfl, hcreate, hstate⟩

/-- The entry record of a fully consistent bracketed position. -/
def pRecW6 : OrderRec :=
  { sym := "BTCUSDT", side := "BUY", qty := 2, ent := 100, sl := 90, tgt := [110],
    t_ord := ["trgt-1"], t_q := [2], s_ord := some "stop-1", tag := some "TAG",
    crt := 0 }

/-- A fully consistent bracketed position: entry, take-profit and stop-loss
all open on the exchange. -/
def mW6 : StateMap :=
  [("mrkt-1", pRecW6),
   ("trgt-1", { parent := some "mrkt-1" }),
   ("stop-1", { parent := some "mrkt-1" })]

/-- Snapshot matching `mW6`: everything open, position live. -/
def snapW6 : Snapshot :=
  { positions := [("BTCUSDT", "LONG", 2)]
    openOrders := [("mrkt-1", "BTCUSDT"), ("trgt-1", "BTCUSDT"), ("stop-1", "BTCUSDT")]
    fetchFilled := fun _ => false }

/-- Witness for C6 (amended) at a consistent state: the first run repairs
nothing, and the second run returns the identical no-repair result. -/
theorem watchdog_idempotent_witness :
    watchdogCycle idCtx snapW6 1000 (watchdogCycle idCtx snapW6 1000 mW6 ["sl-g1"]).state
        (watchdogCycle idCtx snapW6 1000 mW6 ["sl-g1"]).supplyRest =
      watchdogCycle idCtx snapW6 1000 mW6 ["sl-g1"] ∧
    (watchdogCycle idCtx snapW6 1000 (watchdogCycle idCtx snapW6 1000 mW6 ["sl-g1"]).state
        (watchdogCycle idCtx snapW6 1000 mW6 ["sl-g1"]).supplyRest).created = [] ∧
    (watchdogCycle idCtx snapW6 1000 (watchdogCycle idCtx snapW6 1000 mW6 ["sl-g1"]).state
        (watchdogCycle idCtx snapW6 1000 mW6 ["sl-g1"]).supplyRest).state = mW6 :=
  watchdog_idempotent idCtx snapW6 1000 mW6 ["sl-g1"] (by decide) (by decide) (by decide)

end Teletrader
